import Mathlib

/-!
Verification development for the Alias runtime-compat layer
(`alias_stream_adapter.py`, `alias_runner.py`, `chat_runtime.py`).

Python strings are embedded as lists of characters (`Str`), Python dicts
with a fixed field set as structures, `None`-able fields as `Option`,
and the async generators as pure functions from the (finite) source
stream to the list of events they yield, in yield order.
-/

namespace Alias

/-- A Python `str`, embedded as its sequence of characters. -/
abbrev Str := List Char

/-- `MessageType` values used by the adapter (from agentscope_runtime
`agent_schemas`; only the four members the adapter mentions). -/
inductive MessageType
  | REASONING
  | PLUGIN_CALL
  | PLUGIN_CALL_OUTPUT
  | MESSAGE
deriving DecidableEq, Repr

/-- `Role` values used by the adapter. -/
inductive Role
  | ASSISTANT
  | TOOL
deriving DecidableEq, Repr

/-- A file entry of a `files` item (`{"filename": ..., "url": ...}`). -/
structure FileRef where
  filename : Str
  url : Str
deriving DecidableEq, Repr

/-- The inner `item["message"]` dict of a raw chunk
(`alias_stream_adapter.py` lines 98-102, 146-184). Fields that the
adapter never reads are omitted; absent keys are `none`.
`content` holds the string value of the `content` key (the adapter
coerces it with `str(... or "")`, which `content.getD []` mirrors). -/
structure InnerMsg where
  type : Option String
  status : Option String
  tool_call_id : Option String
  content : Option Str
  tool_name : Option String
  files : Option (List FileRef)
deriving DecidableEq, Repr

/-- The `{}` fallback used for `item.get("message") or {}`. -/
def emptyInnerMsg : InnerMsg :=
  { type := none, status := none, tool_call_id := none, content := none,
    tool_name := none, files := none }

/-- One element of `chunk["data"]["messages"]`. -/
structure Item where
  id : Option String
  message : Option InnerMsg
deriving DecidableEq, Repr

/-- One chunk of the adapter source stream: either a malformed value
(not a dict, or without a `"data"` key — skipped at line 92-93) or a
well-formed one carrying `data.messages or []`. -/
inductive RawChunk
  | malformed
  | wellFormed (messages : List Item)
deriving DecidableEq, Repr

/-- The identity of a logical message: the adapter's
`state_key = f"{tool_call_id}_{runtime_type}"` (line 117), embedded as
the pair it is built from. -/
abbrev Key := Option String × MessageType

/-- Per-identity adapter state (`AliasAdapterState`, lines 66-77; the
builder handles are not part of the observable state). -/
structure MsgState where
  last_content : Str
  is_completed : Bool
deriving DecidableEq, Repr

/-- The adapter's mutable state: the insertion-ordered `state_map`
dict and `last_active_key` (lines 85-86). -/
structure AdapterSt where
  state_map : List (Key × MsgState)
  last_active_key : Option Key
deriving DecidableEq, Repr

/-- The canonical events the adapter yields. `messageOpened` stands
for `mb.get_message_data()`, `contentCompleted` for `cb.complete()`,
`messageCompleted` for `mb.complete()`, `textDelta` for
`cb.add_text_delta(delta)`, `setText` for `cb.set_text(raw_text)`,
`setData` for `cb.set_data(...)` (whose JSON payload no claim
inspects, so it is elided), `created`/`inProgress`/`completed` for the
response-level `rb.created()`, `rb.in_progress()`, `rb.completed()`. -/
inductive Event
  | created
  | inProgress
  | messageOpened (key : Key) (role : Role) (mtype : MessageType)
  | contentCompleted (key : Key)
  | messageCompleted (key : Key)
  | textDelta (key : Key) (delta : Str)
  | setText (key : Key) (text : Str)
  | setData (key : Key)
  | completed
deriving DecidableEq, Repr

/-- Python `a or b` on two optional strings (`""` and `None` are
falsy), used for `inner_msg.get("tool_call_id") or alias_id`. -/
def pyOr (a b : Option String) : Option String :=
  match a with
  | some s => if s = "" then b else some s
  | none => b

/-- The `alias_type` → `(runtime_type, target_role)` dispatch
(lines 104-115). -/
def runtimeTypeOf (t : Option String) : MessageType × Role :=
  if t = some ("thought") ∨ t = some ("sub_thought") then
    (.REASONING, .ASSISTANT)
  else if t = some ("tool_call") ∨ t = some ("tool_use") then
    (.PLUGIN_CALL, .ASSISTANT)
  else if t = some ("tool_result") then
    (.PLUGIN_CALL_OUTPUT, .TOOL)
  else
    (.MESSAGE, .ASSISTANT)

/-- `item.get("message") or {}`. -/
def innerOf (item : Item) : InnerMsg :=
  item.message.getD emptyInnerMsg

/-- The identity `(correlation_id, message_kind)` computed for an item
(lines 97-117). -/
def keyOf (item : Item) : Key :=
  (pyOr (innerOf item).tool_call_id item.id, (runtimeTypeOf (innerOf item).type).1)

/-- Lookup in the insertion-ordered state map (`state_map.get`). -/
def lookupKey : List (Key × MsgState) → Key → Option MsgState
  | [], _ => none
  | (k, s) :: rest, k' => if k' = k then some s else lookupKey rest k'

/-- In-place update of the binding of `k` (mutating a dict value);
no-op when `k` is absent. -/
def setState : List (Key × MsgState) → Key → MsgState → List (Key × MsgState)
  | [], _, _ => []
  | (k, s) :: rest, k', s' =>
      if k' = k then (k, s') :: rest else (k, s) :: setState rest k' s'

/-- The `files` rendering (lines 149-155): a newline-joined list of
markdown links. -/
def renderFiles (fs : List FileRef) : Str :=
  (List.intersperse (("\n").data)
    (fs.map (fun f =>
      ("📁 [").data ++ f.filename ++ ("](").data ++ f.url ++ (")").data))).flatten

/-- `raw_text` for a MESSAGE/REASONING item (lines 147-155): the
string content, overridden by the rendered file list when the item
type is `"files"` and a `files` key is present. -/
def rawTextOf (inner : InnerMsg) : Str :=
  if inner.type = some ("files") ∧ inner.files.isSome then
    renderFiles (inner.files.getD [])
  else
    inner.content.getD []

/-- Lines 119-125: if a different identity was active and its message
is not yet completed, force-close it. -/
def stepClose (st : AdapterSt) (key : Key) : List Event × AdapterSt :=
  match st.last_active_key with
  | none => ([], st)
  | some lk =>
    if lk = key then ([], st)
    else
      match lookupKey st.state_map lk with
      | none => ([], st)
      | some old =>
        if old.is_completed then ([], st)
        else
          ([.contentCompleted lk, .messageCompleted lk],
           ⟨setState st.state_map lk ⟨old.last_content, true⟩, st.last_active_key⟩)

/-- Lines 128-142: on first sight of an identity, emit the opened
message and register a fresh state. -/
def stepOpen (st : AdapterSt) (key : Key) (role : Role) (mtype : MessageType) :
    List Event × AdapterSt :=
  match lookupKey st.state_map key with
  | some _ => ([], st)
  | none =>
    ([.messageOpened key role mtype],
     ⟨st.state_map ++ [(key, ⟨[], false⟩)], st.last_active_key⟩)

/-- Lines 146-184: the kind-specific payload handling. For
MESSAGE/REASONING this is the prefix-delta rule; for PLUGIN_CALL and
PLUGIN_CALL_OUTPUT a structured `set_data` payload is emitted (its
JSON body is elided as no claim inspects it). -/
def stepPayload (st : AdapterSt) (key : Key) (mtype : MessageType)
    (inner : InnerMsg) : List Event × AdapterSt :=
  if mtype = .MESSAGE ∨ mtype = .REASONING then
    let s := (lookupKey st.state_map key).getD ⟨[], false⟩
    let raw := rawTextOf inner
    if s.last_content.isPrefixOf raw then
      let delta := raw.drop s.last_content.length
      ((if delta = [] then [] else [.textDelta key delta]),
       ⟨setState st.state_map key ⟨raw, s.is_completed⟩, st.last_active_key⟩)
    else
      ([.setText key raw],
       ⟨setState st.state_map key ⟨raw, s.is_completed⟩, st.last_active_key⟩)
  else
    ([.setData key], st)

/-- Lines 186-189: when the item carries status `"finished"` and the
message is not already completed, close it immediately. -/
def stepFinish (st : AdapterSt) (key : Key) (status : Option String) :
    List Event × AdapterSt :=
  match lookupKey st.state_map key with
  | none => ([], st)
  | some s =>
    if status = some ("finished") ∧ s.is_completed = false then
      ([.contentCompleted key, .messageCompleted key],
       ⟨setState st.state_map key ⟨s.last_content, true⟩, st.last_active_key⟩)
    else ([], st)

/-- Processing of one inner item (the body of the `for item in
messages` loop, lines 96-189). -/
def processItem (st : AdapterSt) (item : Item) : List Event × AdapterSt :=
  let inner := innerOf item
  let key := keyOf item
  let p1 := stepClose st key
  let st2 : AdapterSt := ⟨p1.2.state_map, some key⟩
  let p2 := stepOpen st2 key (runtimeTypeOf inner.type).2 (runtimeTypeOf inner.type).1
  let p3 := stepPayload p2.2 key (runtimeTypeOf inner.type).1 inner
  let p4 := stepFinish p3.2 key inner.status
  (p1.1 ++ (p2.1 ++ (p3.1 ++ p4.1)), p4.2)

/-- Folding `processItem` over a chunk's message list. -/
def processItems (st : AdapterSt) : List Item → List Event × AdapterSt
  | [] => ([], st)
  | i :: is =>
    let p := processItem st i
    let q := processItems p.2 is
    (p.1 ++ q.1, q.2)

/-- Processing one raw chunk (lines 91-95): malformed chunks are
skipped. -/
def processChunk (st : AdapterSt) : RawChunk → List Event × AdapterSt
  | .malformed => ([], st)
  | .wellFormed items => processItems st items

/-- Folding `processChunk` over the whole source stream. -/
def processChunks (st : AdapterSt) : List RawChunk → List Event × AdapterSt
  | [] => ([], st)
  | c :: cs =>
    let p := processChunk st c
    let q := processChunks p.2 cs
    (p.1 ++ q.1, q.2)

/-- Outcome of one finalization attempt on an external builder pair
(the `try` body at lines 193-196): the builder calls may succeed, or
raise before the first yield (`failContent`), or raise between the two
yields (`failMessage`); the `except` clause swallows the failure. -/
inductive FinalizeOutcome
  | ok
  | failContent
  | failMessage
deriving DecidableEq, Repr

/-- One iteration of the end-of-stream cleanup loop (lines 191-201)
for a single state, under a given failure outcome. -/
def closeOutcome (mode : Key → FinalizeOutcome) (k : Key) (s : MsgState) :
    List Event :=
  if s.is_completed then []
  else
    match mode k with
    | .ok => [.contentCompleted k, .messageCompleted k]
    | .failMessage => [.contentCompleted k]
    | .failContent => []

/-- The end-of-stream cleanup loop (lines 191-201): every still-open
state gets one isolated closure attempt, in insertion order. -/
def finalize (mode : Key → FinalizeOutcome) : List (Key × MsgState) → List Event
  | [] => []
  | (k, s) :: rest => closeOutcome mode k s ++ finalize mode rest

/-- The initial adapter state. -/
def initSt : AdapterSt := ⟨[], none⟩

/-- `adapt_alias_message_stream` (lines 80-203) as a function from the
finite source stream to the list of yielded events. `mode` supplies
the behaviour of the external builder calls inside the finalization
`try`/`except` (all-`ok` is normal operation). -/
def adapt_alias_message_stream (mode : Key → FinalizeOutcome)
    (chunks : List RawChunk) : List Event :=
  let p := processChunks initSt chunks
  .created :: .inProgress :: (p.1 ++ finalize mode p.2.state_map ++ [.completed])

/-! ## The Runner (`alias_runner.py`) -/

/-- A content block inside a turn's `content` list: a dict carrying
`type`/`text` keys (`none` for absent keys), or a non-dict value that
the block scan at lines 107-109 skips. -/
inductive ContentBlock
  | dict (btype : Option String) (btext : Option Str)
  | nondict
deriving DecidableEq, Repr

/-- The `content` value of the last turn: a plain string, a list of
blocks, or anything else (absent, `None`, a dict, ...). -/
inductive TurnContentVal
  | str (s : Str)
  | list (bs : List ContentBlock)
  | other
deriving DecidableEq, Repr

/-- One turn dict: its `content` value and its `text` key (`some`
exactly when the key is present with a string value, matching the
`"text" in last and isinstance(last["text"], str)` check). -/
structure TurnDict where
  content : TurnContentVal
  text : Option Str
deriving DecidableEq, Repr

/-- One element of a list-shaped `input`: a dict or a skipped
non-dict (`isinstance(last, dict)`, line 102). -/
inductive TurnVal
  | dict (t : TurnDict)
  | nondict
deriving DecidableEq, Repr

/-- `req_dict.get("input")`: a string, a list of turns, or anything
else (absent, `None`, a dict, ...). -/
inductive AgentInput
  | text (s : Str)
  | turns (ts : List TurnVal)
  | other
deriving DecidableEq, Repr

/-- The reversed-order scan for the last block whose `type` is
`"text"` (lines 107-109); its `text` value defaults to `""` via
`blk.get("text") or ""`. -/
def findLastTextBlock (bs : List ContentBlock) : Option Str :=
  bs.reverse.findSome? (fun b =>
    match b with
    | .dict t tx => if t = some ("text") then some (tx.getD []) else none
    | .nondict => none)

/-- `_extract_text_from_agent_request` (lines 94-112). -/
def extract_text_from_agent_request (input : AgentInput) : Str :=
  match input with
  | .text s => s
  | .turns ts =>
    match ts.getLast? with
    | none => []
    | some .nondict => []
    | some (.dict last) =>
      match last.content with
      | .str s => s
      | .list bs =>
        match findLastTextBlock bs with
        | some s => s
        | none => last.text.getD []
      | .other => last.text.getD []
  | .other => []

/-- An exception escaping the backend invocation / stream adaptation.
`baseError` is the repository's `BaseError`; its class lives in
`alias/server/exceptions/base.py`, which is not among the provided
sources. Modelled from the spec: a known backend-error type that
"carries a code and message". `otherExc` carries `str(exc)` of any
other exception. -/
inductive Exc
  | baseError (code : Int) (message : Str)
  | otherExc (s : Str)
deriving DecidableEq, Repr

/-- The request dict as `stream_query` reads it. `conversation_id`
and the other id fields hold the result of `_to_uuid` (an abstract
identifier; `none` when the key is absent or unparseable). -/
structure ReqDict where
  id : Option String
  session_id : Option String
  input : AgentInput
  user_id : Option String
  conversation_id : Option Nat
  task_id : Option Nat
  chat_mode : Option String
deriving DecidableEq, Repr

/-- Outcomes of the external collaborators `stream_query` awaits:
the conversation-creation call (`_get_or_create_conversation_id`
body; an `error` carries the text interpolated into the 500 message),
`ChatRequest.model_validate` (an `error` carries the `ValidationError`
text), and the adapted backend stream — the canonical events it
yields before either finishing or raising `backendError`. -/
structure RunnerEnv where
  convCreate : Except Str Nat
  chatValidate : Except Str Unit
  backendEvents : List Event
  backendError : Option Exc
deriving Repr

/-- Events yielded by `stream_query`, each passed through
`seq_gen.yield_with_sequence`: the response-level lifecycle markers
(`created` is the fresh `AgentResponse`, then `in_progress`,
`failed`, `completed`) and the forwarded adapter events. `failed`
carries the `Error(code=..., message=...)` payload; codes are the
string values the source builds. -/
inductive REvent
  | created
  | inProgress
  | failed (code : String) (message : Str)
  | adapter (e : Event)
  | completed
deriving DecidableEq, Repr

/-- Conversation resolution in `stream_query` (lines 295-308): a
request-supplied id is used as-is, otherwise the cached-or-created
one. -/
def resolveConv (req : ReqDict) (env : RunnerEnv) : Except Str Nat :=
  match req.conversation_id with
  | some cid => Except.ok cid
  | none => env.convCreate

/-- The `Error` code/message built from an exception at lines
352-359. -/
def excCode (e : Exc) : String :=
  match e with
  | .baseError c _ => toString c
  | .otherExc _ => "500"

/-- The failure message built at lines 352-359: a `BaseError` passes
its message through; any other exception is wrapped in the
`query_handler` prefix. -/
def excMessage (e : Exc) : Str :=
  match e with
  | .baseError _ m => m
  | .otherExc s => ("Error happens in `query_handler`: ").data ++ s

/-- `stream_query` (lines 244-371) as the list of events it yields,
in order, given the collaborator outcomes in `env`. Identity
resolution that produces no events (user uuid derivation, task id) is
not observable and therefore not represented. -/
def stream_query (req : ReqDict) (env : RunnerEnv) : List REvent :=
  .created :: .inProgress ::
    (if extract_text_from_agent_request req.input = [] then
      [.failed ("422") (("Empty input text in AgentRequest.input.").data)]
    else
      match resolveConv req env with
      | .error emsg =>
        [.failed ("500") ((("Failed to create conversation: ").data) ++ emsg)]
      | .ok _ =>
        match env.chatValidate with
        | .error vmsg =>
          [.failed ("422") ((("ChatRequest validation failed: ").data) ++ vmsg)]
        | .ok _ =>
          env.backendEvents.map .adapter ++
            (match env.backendError with
             | some e => [.failed (excCode e) (excMessage e)]
             | none => [.completed]))

/-- The sequence-numbered stream: `SequenceNumberGenerator` (from the
external agentscope_runtime engine) tags each yielded event with the
next integer of a per-response counter, here starting at 0. -/
def streamQueryNumbered (req : ReqDict) (env : RunnerEnv) :
    List (Nat × REvent) :=
  (stream_query req env).enum

/-! ## The native transport path
(`stream_query_native`, lines 162-242, and `event_generator` in
`chat_runtime.py`, lines 73-96). -/

/-- Outcome of `ChatRequest.model_validate(req_dict)` on the native
path (lines 200-216): success, a `ValidationError`, or any other
exception (whose `str` is carried). -/
inductive NativeValidation
  | ok
  | validationError
  | otherError (s : Str)
deriving DecidableEq, Repr

/-- Collaborator outcomes for one native-path run: whether the runner
was started (`_health`), whether `user_id` and `conversation_id` both
resolved, the validation outcome, the raw backend chunks yielded
before either finishing or raising `err`. Raw chunk payloads are
opaque to this path (relayed verbatim), so they are abstract ids. -/
structure NativeEnv where
  health : Bool
  hasContext : Bool
  validate : NativeValidation
  chunks : List Nat
  err : Option Exc
deriving Repr

/-- Chunks yielded to the SSE layer. Each constructor stands for one
distinct payload the source yields: the three error-dict shapes of
`stream_query_native`, a verbatim backend chunk, the `"[DONE]"`
sentinel, and the error dict built in `event_generator`'s `except`
clause. -/
inductive NChunk
  | missingContext
  | invalidRequest
  | invalidRequest500 (message : Str)
  | backendErrorChunk (message : Str) (code : Int)
  | unknownErrorChunk (message : Str)
  | raw (n : Nat)
  | doneSentinel
  | wrapperErrorChunk (code : Int) (message : Str)
deriving DecidableEq, Repr

/-- `stream_query_native` (lines 162-242) as the list of chunks it
yields once started (the not-started `RuntimeError` raise is handled
by the caller, see `event_generator`). -/
def stream_query_native (env : NativeEnv) : List NChunk :=
  if env.hasContext = false then [.missingContext]
  else
    match env.validate with
    | .validationError => [.invalidRequest]
    | .otherError s => [.invalidRequest500 s]
    | .ok =>
      env.chunks.map .raw ++
        (match env.err with
         | some (.baseError c m) => [.backendErrorChunk m c]
         | some (.otherExc s) => [.unknownErrorChunk s]
         | none => [.doneSentinel])

/-- `event_generator` (`chat_runtime.py` lines 73-96): it relays every
chunk as one SSE frame; an exception escaping the inner generator —
here the not-started `RuntimeError` raised before the first yield —
is converted to an error chunk followed by the sentinel. Each list
element corresponds to exactly one `data: ...\n\n` frame, and
`doneSentinel` to the `data: [DONE]\n\n` frame. -/
def event_generator (env : NativeEnv) : List NChunk :=
  if env.health then stream_query_native env
  else
    [.wrapperErrorChunk 500
      (("Runner has not been started. Please call \x27await runner.start()\x27 or use \x27async with Runner()\x27 before calling \x27stream_query\x27.").data),
     .doneSentinel]

/-! ## The session→conversation cache
(`_get_or_create_conversation_id`, lines 129-160). -/

/-- The program of `_get_or_create_conversation_id` for one fixed
session id, cut at its suspension points into atomic segments:
pc 0 = the cache lookup (lines 134-135), pc 1 = the awaited
conversation-creation call (lines 137-144), pc 2 = the cache
insertion and return (lines 159-160), pc 3 = done. The function body
contains no lock acquisition (`AliasRunner.__init__` creates only the
plain dict at line 51), so any task may run between two segments.
Returns (new pc, new cache flag, number of creation calls made). -/
def convResolveStep (pc : Nat) (cached : Bool) : Nat × Bool × Nat :=
  match pc with
  | 0 => if cached then (3, cached, 0) else (1, cached, 0)
  | 1 => (2, cached, 1)
  | 2 => (3, true, 0)
  | _ => (pc, cached, 0)

/-- Two concurrent resolutions for the same session: the shared cache
flag, both tasks' program counters, and the total number of
conversation-creation calls performed. -/
structure ConvCacheState where
  cached : Bool
  pcA : Nat
  pcB : Nat
  creations : Nat
deriving DecidableEq, Repr

/-- Run one atomic segment of the scheduled task (`true` = task A). -/
def convSchedStep (s : ConvCacheState) (pickA : Bool) : ConvCacheState :=
  if pickA then
    let r := convResolveStep s.pcA s.cached
    ⟨r.2.1, r.1, s.pcB, s.creations + r.2.2⟩
  else
    let r := convResolveStep s.pcB s.cached
    ⟨r.2.1, s.pcA, r.1, s.creations + r.2.2⟩

/-- Run a cooperative schedule from the initial state (cache empty,
both tasks at the cache lookup). -/
def runConvSchedule (sched : List Bool) : ConvCacheState :=
  sched.foldl convSchedStep ⟨false, 0, 0, 0⟩

/-! ## State-map lemmas -/

theorem lookupKey_eq_none_iff (m : List (Key × MsgState)) (k : Key) :
    lookupKey m k = none ↔ k ∉ m.map Prod.fst := by
  induction m with
  | nil => simp [lookupKey]
  | cons p rest ih =>
    obtain ⟨k0, s0⟩ := p
    by_cases h : k = k0 <;> simp [lookupKey, h, ih]

theorem mapFst_setState (m : List (Key × MsgState)) (k : Key) (v : MsgState) :
    (setState m k v).map Prod.fst = m.map Prod.fst := by
  induction m with
  | nil => simp [setState]
  | cons p rest ih =>
    obtain ⟨k0, s0⟩ := p
    by_cases h : k = k0 <;> simp [setState, h, ih]

theorem lookupKey_setState_self (m : List (Key × MsgState)) (k : Key)
    (v s : MsgState) (h : lookupKey m k = some s) :
    lookupKey (setState m k v) k = some v := by
  induction m with
  | nil => simp [lookupKey] at h
  | cons p rest ih =>
    obtain ⟨k0, s0⟩ := p
    by_cases hk : k = k0
    · simp [setState, lookupKey, hk]
    · simp [setState, lookupKey, hk] at h ⊢
      exact ih h

theorem lookupKey_setState_ne (m : List (Key × MsgState)) (k : Key)
    (v : MsgState) (k' : Key) (h : k' ≠ k) :
    lookupKey (setState m k v) k' = lookupKey m k' := by
  induction m with
  | nil => simp [setState]
  | cons p rest ih =>
    obtain ⟨k0, s0⟩ := p
    by_cases hk : k = k0
    · subst hk
      simp [setState, lookupKey, h]
    · by_cases hk' : k' = k0 <;> simp [setState, lookupKey, hk, hk', ih]

theorem setState_of_lookup_none (m : List (Key × MsgState)) (k : Key)
    (v : MsgState) (h : lookupKey m k = none) : setState m k v = m := by
  induction m with
  | nil => rfl
  | cons p rest ih =>
    obtain ⟨k0, s0⟩ := p
    by_cases hk : k = k0
    · simp [lookupKey, hk] at h
    · simp [setState, lookupKey, hk] at h ⊢
      exact ih h

theorem lookupKey_append_of_some (m : List (Key × MsgState)) (k : Key)
    (v : MsgState) (k' : Key) (s : MsgState)
    (h : lookupKey m k' = some s) :
    lookupKey (m ++ [(k, v)]) k' = some s := by
  induction m with
  | nil => simp [lookupKey] at h
  | cons p rest ih =>
    obtain ⟨k0, s0⟩ := p
    by_cases hk : k' = k0
    · simp [lookupKey, hk] at h ⊢
      exact h
    · simp [lookupKey, hk] at h ⊢
      exact ih h

theorem lookupKey_append_self (m : List (Key × MsgState)) (k : Key)
    (v : MsgState) (h : lookupKey m k = none) :
    lookupKey (m ++ [(k, v)]) k = some v := by
  induction m with
  | nil => simp [lookupKey]
  | cons p rest ih =>
    obtain ⟨k0, s0⟩ := p
    by_cases hk : k = k0
    · simp [lookupKey, hk] at h
    · simp [lookupKey, hk] at h ⊢
      exact ih h

theorem lookupKey_append_ne (m : List (Key × MsgState)) (k : Key)
    (v : MsgState) (k' : Key) (h : k' ≠ k) :
    lookupKey (m ++ [(k, v)]) k' = lookupKey m k' := by
  induction m with
  | nil => simp [lookupKey, h]
  | cons p rest ih =>
    obtain ⟨k0, s0⟩ := p
    by_cases hk : k' = k0 <;> simp [lookupKey, hk, ih]

/-! ## Step characterizations -/

theorem stepClose_spec (st : AdapterSt) (key : Key) :
    stepClose st key = ([], st) ∨
    ∃ lk old, st.last_active_key = some lk ∧ lk ≠ key ∧
      lookupKey st.state_map lk = some old ∧ old.is_completed = false ∧
      stepClose st key =
        ([.contentCompleted lk, .messageCompleted lk],
         ⟨setState st.state_map lk ⟨old.last_content, true⟩,
          st.last_active_key⟩) := by
  unfold stepClose
  cases hla : st.last_active_key with
  | none => exact Or.inl rfl
  | some lk =>
    by_cases hk : lk = key
    · exact Or.inl (by simp [hk])
    · cases ho : lookupKey st.state_map lk with
      | none => exact Or.inl (by simp [hk, ho])
      | some old =>
        by_cases hc : old.is_completed
        · exact Or.inl (by simp [hk, ho, hc])
        · refine Or.inr ⟨lk, old, rfl, hk, ho, by simpa using hc, ?_⟩
          simp [hk, ho, hc, hla]

theorem stepOpen_spec (st : AdapterSt) (key : Key) (role : Role)
    (mt : MessageType) :
    ((∃ s, lookupKey st.state_map key = some s) ∧
      stepOpen st key role mt = ([], st)) ∨
    (lookupKey st.state_map key = none ∧
      stepOpen st key role mt =
        ([.messageOpened key role mt],
         ⟨st.state_map ++ [(key, ⟨[], false⟩)], st.last_active_key⟩)) := by
  unfold stepOpen
  cases ho : lookupKey st.state_map key with
  | none => exact Or.inr ⟨rfl, rfl⟩
  | some s => exact Or.inl ⟨⟨s, rfl⟩, rfl⟩

theorem stepPayload_spec (st : AdapterSt) (key : Key) (mt : MessageType)
    (inner : InnerMsg) :
    ((mt = .MESSAGE ∨ mt = .REASONING) ∧
      ∃ evs, ((∃ d, evs = [Event.textDelta key d] ∧ d ≠ []) ∨ evs = [] ∨
          (∃ t, evs = [Event.setText key t])) ∧
        stepPayload st key mt inner =
          (evs,
           ⟨setState st.state_map key
              ⟨rawTextOf inner,
               ((lookupKey st.state_map key).getD ⟨[], false⟩).is_completed⟩,
            st.last_active_key⟩)) ∨
    (¬ (mt = .MESSAGE ∨ mt = .REASONING) ∧
      stepPayload st key mt inner = ([.setData key], st)) := by
  unfold stepPayload
  by_cases hm : mt = .MESSAGE ∨ mt = .REASONING
  · refine Or.inl ⟨hm, ?_⟩
    by_cases hp :
        ((lookupKey st.state_map key).getD ⟨[], false⟩).last_content.isPrefixOf
          (rawTextOf inner)
    · by_cases hd :
          (rawTextOf inner).drop
            ((lookupKey st.state_map key).getD ⟨[], false⟩).last_content.length
            = []
      · exact ⟨[], Or.inr (Or.inl rfl), by simp [hm, hp, hd]⟩
      · refine ⟨[Event.textDelta key
            ((rawTextOf inner).drop
              ((lookupKey st.state_map key).getD ⟨[], false⟩).last_content.length)],
          Or.inl ⟨_, rfl, hd⟩, ?_⟩
        simp [hm, hp, hd]
    · refine ⟨[Event.setText key (rawTextOf inner)],
        Or.inr (Or.inr ⟨_, rfl⟩), ?_⟩
      simp [hm, hp]
  · exact Or.inr ⟨hm, by simp [hm]⟩

theorem stepFinish_spec (st : AdapterSt) (key : Key) (status : Option String) :
    stepFinish st key status = ([], st) ∨
    ∃ s, lookupKey st.state_map key = some s ∧
      status = some ("finished") ∧ s.is_completed = false ∧
      stepFinish st key status =
        ([.contentCompleted key, .messageCompleted key],
         ⟨setState st.state_map key ⟨s.last_content, true⟩,
          st.last_active_key⟩) := by
  unfold stepFinish
  cases ho : lookupKey st.state_map key with
  | none => exact Or.inl rfl
  | some s =>
    by_cases hc : status = some ("finished") ∧ s.is_completed = false
    · exact Or.inr ⟨s, rfl, hc.1, hc.2, by simp [hc]⟩
    · exact Or.inl (by simp [hc])

/-! ## Conditional step equations and lookup preservation -/

theorem stepClose_of_none (st : AdapterSt) (key : Key)
    (h : st.last_active_key = none) : stepClose st key = ([], st) := by
  unfold stepClose
  rw [h]

theorem stepClose_of_self (st : AdapterSt) (key : Key)
    (h : st.last_active_key = some key) : stepClose st key = ([], st) := by
  unfold stepClose
  rw [h]
  simp

theorem stepClose_of_lookup_none (st : AdapterSt) (key lk : Key)
    (hla : st.last_active_key = some lk) (hne : lk ≠ key)
    (h : lookupKey st.state_map lk = none) : stepClose st key = ([], st) := by
  unfold stepClose
  rw [hla]
  simp [hne, h]

theorem stepClose_of_completed (st : AdapterSt) (key lk : Key)
    (old : MsgState) (hla : st.last_active_key = some lk) (hne : lk ≠ key)
    (hlk : lookupKey st.state_map lk = some old)
    (hc : old.is_completed = true) : stepClose st key = ([], st) := by
  unfold stepClose
  rw [hla]
  simp [hne, hlk, hc]

theorem stepClose_close (st : AdapterSt) (key lk : Key) (old : MsgState)
    (hla : st.last_active_key = some lk) (hne : lk ≠ key)
    (hlk : lookupKey st.state_map lk = some old)
    (hc : old.is_completed = false) :
    stepClose st key =
      ([.contentCompleted lk, .messageCompleted lk],
       ⟨setState st.state_map lk ⟨old.last_content, true⟩,
        st.last_active_key⟩) := by
  unfold stepClose
  rw [hla]
  simp [hne, hlk, hc, hla]

theorem stepOpen_lookup_ne (st : AdapterSt) (key : Key) (role : Role)
    (mt : MessageType) (k : Key) (h : k ≠ key) :
    lookupKey (stepOpen st key role mt).2.state_map k =
      lookupKey st.state_map k := by
  rcases stepOpen_spec st key role mt with ⟨_, heq⟩ | ⟨_, heq⟩
  · rw [heq]
  · rw [heq]
    exact lookupKey_append_ne _ _ _ _ h

theorem stepOpen_lookup_key (st : AdapterSt) (key : Key) (role : Role)
    (mt : MessageType) :
    lookupKey (stepOpen st key role mt).2.state_map key =
      some ((lookupKey st.state_map key).getD ⟨[], false⟩) := by
  rcases stepOpen_spec st key role mt with ⟨⟨s, hs⟩, heq⟩ | ⟨hn, heq⟩
  · rw [heq, hs]
    rfl
  · rw [heq]
    rw [show ((⟨st.state_map ++ [(key, ⟨[], false⟩)], st.last_active_key⟩ :
        AdapterSt)).state_map = st.state_map ++ [(key, ⟨[], false⟩)] from rfl]
    rw [lookupKey_append_self st.state_map key _ hn, hn]
    rfl

theorem stepPayload_lookup_ne (st : AdapterSt) (key : Key)
    (mt : MessageType) (inner : InnerMsg) (k : Key) (h : k ≠ key) :
    lookupKey (stepPayload st key mt inner).2.state_map k =
      lookupKey st.state_map k := by
  rcases stepPayload_spec st key mt inner with ⟨_, evs, _, heq⟩ | ⟨_, heq⟩
  · rw [heq]
    exact lookupKey_setState_ne _ _ _ _ h
  · rw [heq]

theorem lookupKey_setState_key (m : List (Key × MsgState)) (k : Key)
    (v : MsgState) :
    lookupKey (setState m k v) k = (lookupKey m k).map (fun _ => v) := by
  cases ho : lookupKey m k with
  | none => simp [setState_of_lookup_none m k v ho, ho]
  | some s => simp [lookupKey_setState_self m k v s ho]

theorem stepPayload_lookup_key (st : AdapterSt) (key : Key)
    (mt : MessageType) (inner : InnerMsg) :
    lookupKey (stepPayload st key mt inner).2.state_map key =
      if mt = .MESSAGE ∨ mt = .REASONING then
        (lookupKey st.state_map key).map
          (fun s => ⟨rawTextOf inner, s.is_completed⟩)
      else lookupKey st.state_map key := by
  rcases stepPayload_spec st key mt inner with ⟨hmr, evs, _, heq⟩ | ⟨hmr, heq⟩
  · rw [heq, if_pos hmr]
    show lookupKey (setState st.state_map key
        ⟨rawTextOf inner,
         ((lookupKey st.state_map key).getD ⟨[], false⟩).is_completed⟩) key
      = _
    rw [lookupKey_setState_key]
    cases ho : lookupKey st.state_map key with
    | none => rfl
    | some s => rfl
  · rw [heq, if_neg hmr]

theorem stepFinish_lookup_ne (st : AdapterSt) (key : Key)
    (status : Option String) (k : Key) (h : k ≠ key) :
    lookupKey (stepFinish st key status).2.state_map k =
      lookupKey st.state_map k := by
  rcases stepFinish_spec st key status with heq | ⟨s, _, _, _, heq⟩
  · rw [heq]
  · rw [heq]
    exact lookupKey_setState_ne _ _ _ _ h

theorem stepFinish_close (st : AdapterSt) (key : Key)
    (status : Option String) (s : MsgState)
    (hs : lookupKey st.state_map key = some s)
    (hst : status = some ("finished")) (hc : s.is_completed = false) :
    stepFinish st key status =
      ([.contentCompleted key, .messageCompleted key],
       ⟨setState st.state_map key ⟨s.last_content, true⟩,
        st.last_active_key⟩) := by
  unfold stepFinish
  rw [hs]
  simp [hst, hc]

theorem mem_of_lookup_some (m : List (Key × MsgState)) (k : Key)
    (s : MsgState) (h : lookupKey m k = some s) :
    k ∈ m.map Prod.fst := by
  by_contra hmem
  rw [← lookupKey_eq_none_iff] at hmem
  rw [hmem] at h
  exact Option.noConfusion h

/-! ## Event counting and completion flags -/

/-- Number of occurrences of one event in a yielded list. -/
def countEv (e : Event) : List Event → Nat
  | [] => 0
  | x :: l => (if x = e then 1 else 0) + countEv e l

/-- Number of `messageOpened` events in a yielded list. -/
def countOpened : List Event → Nat
  | [] => 0
  | .messageOpened _ _ _ :: l => 1 + countOpened l
  | .created :: l => countOpened l
  | .inProgress :: l => countOpened l
  | .contentCompleted _ :: l => countOpened l
  | .messageCompleted _ :: l => countOpened l
  | .textDelta _ _ :: l => countOpened l
  | .setText _ _ :: l => countOpened l
  | .setData _ :: l => countOpened l
  | .completed :: l => countOpened l

theorem countEv_append (e : Event) (a b : List Event) :
    countEv e (a ++ b) = countEv e a + countEv e b := by
  induction a with
  | nil => simp [countEv]
  | cons x l ih => simp [countEv, ih, Nat.add_assoc]

theorem countOpened_eq_filter (l : List Event) :
    countOpened l = (l.filter (fun e =>
      match e with
      | .messageOpened _ _ _ => true
      | _ => false)).length := by
  induction l with
  | nil => rfl
  | cons x l ih =>
    cases x <;> simp [countOpened, ih, List.filter_cons, Nat.add_comm]

theorem countOpened_append (a b : List Event) :
    countOpened (a ++ b) = countOpened a + countOpened b := by
  simp [countOpened_eq_filter, List.filter_append]

/-- 1 when the state registered for `k` is completed, 0 otherwise. -/
def flagCount (m : List (Key × MsgState)) (k : Key) : Nat :=
  match lookupKey m k with
  | some s => if s.is_completed then 1 else 0
  | none => 0

/-! ## Per-step bookkeeping lemmas -/

theorem stepClose_flag (st : AdapterSt) (key k : Key) :
    flagCount (stepClose st key).2.state_map k =
      flagCount st.state_map k +
        countEv (.messageCompleted k) (stepClose st key).1 := by
  rcases stepClose_spec st key with h | ⟨lk, old, hla, hne, hlk, hoc, h⟩
  · rw [h]
    simp [countEv]
  · rw [h]
    by_cases hk : k = lk
    · subst hk
      simp only [flagCount,
        lookupKey_setState_self st.state_map k ⟨old.last_content, true⟩ old hlk,
        hlk, hoc, countEv]
      simp
    · rw [show flagCount (setState st.state_map lk ⟨old.last_content, true⟩) k
          = flagCount st.state_map k from by
        simp [flagCount, lookupKey_setState_ne st.state_map lk _ k hk]]
      simp [countEv, Ne.symm hk]

theorem stepClose_opened (st : AdapterSt) (key : Key) :
    countOpened (stepClose st key).1 = 0 := by
  rcases stepClose_spec st key with h | ⟨lk, old, _, _, _, _, h⟩ <;>
    simp [h, countOpened]

theorem stepClose_fst (st : AdapterSt) (key : Key) :
    (stepClose st key).2.state_map.map Prod.fst =
      st.state_map.map Prod.fst := by
  rcases stepClose_spec st key with h | ⟨lk, old, _, _, _, _, h⟩ <;>
    simp [h, mapFst_setState]

theorem stepClose_lookup_key (st : AdapterSt) (key : Key) :
    lookupKey (stepClose st key).2.state_map key =
      lookupKey st.state_map key := by
  rcases stepClose_spec st key with h | ⟨lk, old, _, hne, _, _, h⟩
  · rw [h]
  · rw [h]
    exact lookupKey_setState_ne _ _ _ _ (Ne.symm hne)

theorem stepOpen_flag (st : AdapterSt) (key : Key) (role : Role)
    (mt : MessageType) (k : Key) :
    flagCount (stepOpen st key role mt).2.state_map k =
      flagCount st.state_map k := by
  rcases stepOpen_spec st key role mt with ⟨_, h⟩ | ⟨ho, h⟩ <;> rw [h]
  by_cases hk : k = key
  · subst hk
    simp [flagCount, ho, lookupKey_append_self _ _ _ ho]
  · simp [flagCount, lookupKey_append_ne _ _ _ _ hk]

theorem stepOpen_mc (st : AdapterSt) (key : Key) (role : Role)
    (mt : MessageType) (k : Key) :
    countEv (.messageCompleted k) (stepOpen st key role mt).1 = 0 := by
  rcases stepOpen_spec st key role mt with ⟨_, h⟩ | ⟨_, h⟩ <;>
    simp [h, countEv]

theorem stepOpen_opened (st : AdapterSt) (key : Key) (role : Role)
    (mt : MessageType) :
    countOpened (stepOpen st key role mt).1 =
      if lookupKey st.state_map key = none then 1 else 0 := by
  rcases stepOpen_spec st key role mt with ⟨⟨s, hs⟩, h⟩ | ⟨ho, h⟩
  · simp [h, countOpened, hs]
  · simp [h, countOpened, ho]

theorem stepOpen_fst (st : AdapterSt) (key : Key) (role : Role)
    (mt : MessageType) :
    (stepOpen st key role mt).2.state_map.map Prod.fst =
      if lookupKey st.state_map key = none then
        st.state_map.map Prod.fst ++ [key]
      else st.state_map.map Prod.fst := by
  rcases stepOpen_spec st key role mt with ⟨⟨s, hs⟩, h⟩ | ⟨ho, h⟩
  · simp [h, hs]
  · simp [h, ho]

theorem stepPayload_flag (st : AdapterSt) (key : Key) (mt : MessageType)
    (inner : InnerMsg) (k : Key) :
    flagCount (stepPayload st key mt inner).2.state_map k =
      flagCount st.state_map k := by
  rcases stepPayload_spec st key mt inner with ⟨_, evs, _, h⟩ | ⟨_, h⟩
  · rw [h]
    by_cases hk : k = key
    · subst hk
      cases ho : lookupKey st.state_map k with
      | none => simp [flagCount, ho, setState_of_lookup_none _ _ _ ho]
      | some s =>
        simp [flagCount, ho,
          lookupKey_setState_self st.state_map k _ s ho]
    · simp [flagCount, lookupKey_setState_ne st.state_map key _ k hk]
  · rw [h]

theorem stepPayload_mc (st : AdapterSt) (key : Key) (mt : MessageType)
    (inner : InnerMsg) (k : Key) :
    countEv (.messageCompleted k) (stepPayload st key mt inner).1 = 0 := by
  rcases stepPayload_spec st key mt inner with
    ⟨_, evs, hevs, h⟩ | ⟨_, h⟩ <;> rw [h]
  · rcases hevs with ⟨d, rfl, _⟩ | rfl | ⟨t, rfl⟩ <;> simp [countEv]
  · simp [countEv]

theorem stepPayload_opened (st : AdapterSt) (key : Key) (mt : MessageType)
    (inner : InnerMsg) :
    countOpened (stepPayload st key mt inner).1 = 0 := by
  rcases stepPayload_spec st key mt inner with
    ⟨_, evs, hevs, h⟩ | ⟨_, h⟩ <;> rw [h]
  · rcases hevs with ⟨d, rfl, _⟩ | rfl | ⟨t, rfl⟩ <;> simp [countOpened]
  · simp [countOpened]

theorem stepPayload_fst (st : AdapterSt) (key : Key) (mt : MessageType)
    (inner : InnerMsg) :
    (stepPayload st key mt inner).2.state_map.map Prod.fst =
      st.state_map.map Prod.fst := by
  rcases stepPayload_spec st key mt inner with ⟨_, evs, _, h⟩ | ⟨_, h⟩ <;>
    simp [h, mapFst_setState]

theorem stepFinish_flag (st : AdapterSt) (key : Key) (status : Option String)
    (k : Key) :
    flagCount (stepFinish st key status).2.state_map k =
      flagCount st.state_map k +
        countEv (.messageCompleted k) (stepFinish st key status).1 := by
  rcases stepFinish_spec st key status with h | ⟨s, hs, _, hc, h⟩
  · rw [h]
    simp [countEv]
  · rw [h]
    by_cases hk : k = key
    · subst hk
      simp only [flagCount,
        lookupKey_setState_self st.state_map k ⟨s.last_content, true⟩ s hs,
        hs, hc, countEv]
      simp
    · rw [show flagCount (setState st.state_map key ⟨s.last_content, true⟩) k
          = flagCount st.state_map k from by
        simp [flagCount, lookupKey_setState_ne st.state_map key _ k hk]]
      simp [countEv, Ne.symm hk]

theorem stepFinish_opened (st : AdapterSt) (key : Key)
    (status : Option String) :
    countOpened (stepFinish st key status).1 = 0 := by
  rcases stepFinish_spec st key status with h | ⟨s, _, _, _, h⟩ <;>
    simp [h, countOpened]

theorem stepFinish_fst (st : AdapterSt) (key : Key) (status : Option String) :
    (stepFinish st key status).2.state_map.map Prod.fst =
      st.state_map.map Prod.fst := by
  rcases stepFinish_spec st key status with h | ⟨s, _, _, _, h⟩ <;>
    simp [h, mapFst_setState]

/-! ## Item-level bookkeeping lemmas -/

theorem processItem_flag (st : AdapterSt) (item : Item) (k : Key) :
    flagCount (processItem st item).2.state_map k =
      flagCount st.state_map k +
        countEv (.messageCompleted k) (processItem st item).1 := by
  simp only [processItem]
  rw [stepFinish_flag, stepPayload_flag, stepOpen_flag]
  simp only [countEv_append, stepOpen_mc, stepPayload_mc]
  rw [show (⟨(stepClose st (keyOf item)).2.state_map,
        some (keyOf item)⟩ : AdapterSt).state_map
      = (stepClose st (keyOf item)).2.state_map from rfl]
  rw [stepClose_flag]
  omega

theorem processItem_opened (st : AdapterSt) (item : Item) :
    countOpened (processItem st item).1 =
      if keyOf item ∈ st.state_map.map Prod.fst then 0 else 1 := by
  simp only [processItem]
  simp only [countOpened_append, stepClose_opened, stepPayload_opened,
    stepFinish_opened, stepOpen_opened]
  rw [show (⟨(stepClose st (keyOf item)).2.state_map,
        some (keyOf item)⟩ : AdapterSt).state_map
      = (stepClose st (keyOf item)).2.state_map from rfl]
  rw [stepClose_lookup_key]
  by_cases h : keyOf item ∈ st.state_map.map Prod.fst
  · rw [if_neg (by rw [lookupKey_eq_none_iff]; simpa using h), if_pos h]
  · rw [if_pos (by rw [lookupKey_eq_none_iff]; simpa using h), if_neg h]

theorem processItem_fst (st : AdapterSt) (item : Item) :
    (processItem st item).2.state_map.map Prod.fst =
      if keyOf item ∈ st.state_map.map Prod.fst then
        st.state_map.map Prod.fst
      else st.state_map.map Prod.fst ++ [keyOf item] := by
  simp only [processItem]
  rw [stepFinish_fst, stepPayload_fst, stepOpen_fst]
  rw [show (⟨(stepClose st (keyOf item)).2.state_map,
        some (keyOf item)⟩ : AdapterSt).state_map
      = (stepClose st (keyOf item)).2.state_map from rfl]
  rw [stepClose_lookup_key, stepClose_fst]
  by_cases h : keyOf item ∈ st.state_map.map Prod.fst
  · rw [if_neg (by rw [lookupKey_eq_none_iff]; simpa using h), if_pos h]
  · rw [if_pos (by rw [lookupKey_eq_none_iff]; simpa using h), if_neg h]

theorem processItem_last_active (st : AdapterSt) (item : Item) :
    (processItem st item).2.last_active_key = some (keyOf item) := by
  simp only [processItem]
  have h4 : ∀ (s : AdapterSt) (key : Key) (status : Option String),
      (stepFinish s key status).2.last_active_key = s.last_active_key := by
    intro s key status
    rcases stepFinish_spec s key status with h | ⟨x, _, _, _, h⟩ <;> simp [h]
  have h3 : ∀ (s : AdapterSt) (key : Key) (mt : MessageType)
      (inner : InnerMsg),
      (stepPayload s key mt inner).2.last_active_key = s.last_active_key := by
    intro s key mt inner
    rcases stepPayload_spec s key mt inner with ⟨_, evs, _, h⟩ | ⟨_, h⟩ <;>
      simp [h]
  have h2 : ∀ (s : AdapterSt) (key : Key) (role : Role) (mt : MessageType),
      (stepOpen s key role mt).2.last_active_key = s.last_active_key := by
    intro s key role mt
    rcases stepOpen_spec s key role mt with ⟨_, h⟩ | ⟨_, h⟩ <;> simp [h]
  rw [h4, h3, h2]

/-! ## Stream-level bookkeeping lemmas -/

/-- All items the adapter processes: the message lists of the
well-formed chunks, in order. -/
def itemsOf : List RawChunk → List Item
  | [] => []
  | .malformed :: cs => itemsOf cs
  | .wellFormed ms :: cs => ms ++ itemsOf cs

/-- The adapter state after the main loop. -/
def adapterFinalState (chunks : List RawChunk) : AdapterSt :=
  (processChunks initSt chunks).2

theorem processItems_flag (items : List Item) (st : AdapterSt) (k : Key) :
    flagCount (processItems st items).2.state_map k =
      flagCount st.state_map k +
        countEv (.messageCompleted k) (processItems st items).1 := by
  induction items generalizing st with
  | nil => simp [processItems, countEv]
  | cons i is ih =>
    simp only [processItems, countEv_append]
    rw [ih, processItem_flag]
    omega

theorem processChunks_flag (chunks : List RawChunk) (st : AdapterSt)
    (k : Key) :
    flagCount (processChunks st chunks).2.state_map k =
      flagCount st.state_map k +
        countEv (.messageCompleted k) (processChunks st chunks).1 := by
  induction chunks generalizing st with
  | nil => simp [processChunks, countEv]
  | cons c cs ih =>
    simp only [processChunks, countEv_append]
    rw [ih]
    cases c with
    | malformed => simp [processChunk, countEv]
    | wellFormed ms =>
      simp only [processChunk]
      rw [processItems_flag]
      omega

theorem processItems_keys (items : List Item) (st : AdapterSt)
    (hnd : (st.state_map.map Prod.fst).Nodup) :
    ((processItems st items).2.state_map.map Prod.fst).Nodup ∧
    countOpened (processItems st items).1 +
        (st.state_map.map Prod.fst).length =
      ((processItems st items).2.state_map.map Prod.fst).length ∧
    ∀ k, k ∈ (processItems st items).2.state_map.map Prod.fst ↔
      (k ∈ st.state_map.map Prod.fst ∨ k ∈ items.map keyOf) := by
  induction items generalizing st with
  | nil =>
    refine ⟨hnd, by simp [processItems, countOpened], ?_⟩
    intro k
    simp [processItems]
  | cons i is ih =>
    simp only [processItems, countOpened_append]
    by_cases h : keyOf i ∈ st.state_map.map Prod.fst
    · have hfst := processItem_fst st i
      rw [if_pos h] at hfst
      have hop := processItem_opened st i
      rw [if_pos h] at hop
      obtain ⟨h1, h2, h3⟩ := ih (processItem st i).2 (by rw [hfst]; exact hnd)
      refine ⟨h1, ?_, ?_⟩
      · rw [hfst] at h2
        omega
      · intro k
        rw [h3 k, hfst]
        constructor
        · rintro (hk | hk)
          · exact Or.inl hk
          · exact Or.inr (by simp [hk])
        · rintro (hk | hk)
          · exact Or.inl hk
          · rcases (by simpa using hk : k = keyOf i ∨ k ∈ is.map keyOf) with
              rfl | hk
            · exact Or.inl h
            · exact Or.inr hk
    · have hfst := processItem_fst st i
      rw [if_neg h] at hfst
      have hop := processItem_opened st i
      rw [if_neg h] at hop
      have hnd' : ((processItem st i).2.state_map.map Prod.fst).Nodup := by
        rw [hfst]
        simp [List.nodup_append, hnd, h]
      obtain ⟨h1, h2, h3⟩ := ih (processItem st i).2 hnd'
      refine ⟨h1, ?_, ?_⟩
      · rw [hfst] at h2
        simp only [List.length_append, List.length_singleton] at h2
        omega
      · intro k
        rw [h3 k, hfst]
        constructor
        · rintro (hk | hk)
          · rcases (by simpa using hk : k ∈ st.state_map.map Prod.fst ∨
                k = keyOf i) with hk | rfl
            · exact Or.inl hk
            · exact Or.inr (by simp)
          · exact Or.inr (by simp [hk])
        · rintro (hk | hk)
          · exact Or.inl (by simp [hk])
          · rcases (by simpa using hk : k = keyOf i ∨ k ∈ is.map keyOf) with
              rfl | hk
            · exact Or.inl (by simp)
            · exact Or.inr hk

theorem processChunks_keys (chunks : List RawChunk) (st : AdapterSt)
    (hnd : (st.state_map.map Prod.fst).Nodup) :
    ((processChunks st chunks).2.state_map.map Prod.fst).Nodup ∧
    countOpened (processChunks st chunks).1 +
        (st.state_map.map Prod.fst).length =
      ((processChunks st chunks).2.state_map.map Prod.fst).length ∧
    ∀ k, k ∈ (processChunks st chunks).2.state_map.map Prod.fst ↔
      (k ∈ st.state_map.map Prod.fst ∨ k ∈ (itemsOf chunks).map keyOf) := by
  induction chunks generalizing st with
  | nil =>
    refine ⟨hnd, by simp [processChunks, countOpened], ?_⟩
    intro k
    simp [processChunks, itemsOf]
  | cons c cs ih =>
    cases c with
    | malformed =>
      simp only [processChunks, processChunk, itemsOf, countOpened_append]
      obtain ⟨h1, h2, h3⟩ := ih st hnd
      exact ⟨h1, by simpa [countOpened] using h2, h3⟩
    | wellFormed ms =>
      simp only [processChunks, processChunk, itemsOf, countOpened_append]
      obtain ⟨g1, g2, g3⟩ := processItems_keys ms st hnd
      obtain ⟨h1, h2, h3⟩ := ih (processItems st ms).2 g1
      refine ⟨h1, by omega, ?_⟩
      intro k
      rw [h3 k, g3 k]
      simp [or_assoc]

theorem countOpened_finalize (mode : Key → FinalizeOutcome)
    (m : List (Key × MsgState)) : countOpened (finalize mode m) = 0 := by
  induction m with
  | nil => rfl
  | cons p rest ih =>
    obtain ⟨k, s⟩ := p
    simp only [finalize, countOpened_append, ih]
    by_cases hc : s.is_completed
    · simp [closeOutcome, hc, countOpened]
    · cases hm : mode k <;> simp [closeOutcome, hc, hm, countOpened]

theorem countEv_mc_closeOutcome_ne (mode : Key → FinalizeOutcome)
    (k0 k : Key) (s : MsgState) (h : k0 ≠ k) :
    countEv (.messageCompleted k) (closeOutcome mode k0 s) = 0 := by
  by_cases hc : s.is_completed
  · simp [closeOutcome, hc, countEv]
  · cases hm : mode k0 <;> simp [closeOutcome, hc, hm, countEv, h]

theorem finalize_mc (mode : Key → FinalizeOutcome)
    (m : List (Key × MsgState)) (k : Key)
    (hnd : (m.map Prod.fst).Nodup) :
    countEv (.messageCompleted k) (finalize mode m) =
      match lookupKey m k with
      | some s => if s.is_completed = false ∧ mode k = .ok then 1 else 0
      | none => 0 := by
  induction m with
  | nil => simp [finalize, lookupKey, countEv]
  | cons p rest ih =>
    obtain ⟨k0, s0⟩ := p
    simp only [List.map_cons, List.nodup_cons] at hnd
    obtain ⟨hk0, hrest⟩ := hnd
    simp only [finalize, countEv_append]
    by_cases hk : k = k0
    · subst hk
      have htail : countEv (.messageCompleted k) (finalize mode rest) = 0 := by
        rw [ih hrest]
        have : lookupKey rest k = none := (lookupKey_eq_none_iff rest k).mpr hk0
        simp [this]
      rw [htail]
      simp only [lookupKey, if_pos rfl]
      by_cases hc : s0.is_completed
      · simp [closeOutcome, hc, countEv]
      · cases hm : mode k <;> simp [closeOutcome, hc, hm, countEv]
    · rw [countEv_mc_closeOutcome_ne mode k0 k s0 (Ne.symm hk), ih hrest]
      simp [lookupKey, hk]

theorem finalize_mode_local (mode mode' : Key → FinalizeOutcome)
    (m : List (Key × MsgState)) (k : Key) (h : mode k = mode' k) :
    countEv (.messageCompleted k) (finalize mode m) =
      countEv (.messageCompleted k) (finalize mode' m) := by
  induction m with
  | nil => rfl
  | cons p rest ih =>
    obtain ⟨k0, s0⟩ := p
    simp only [finalize, countEv_append, ih]
    by_cases hk : k0 = k
    · subst hk
      rw [show closeOutcome mode k0 s0 = closeOutcome mode' k0 s0 from by
        simp [closeOutcome, h]]
    · rw [countEv_mc_closeOutcome_ne mode k0 k s0 hk,
        countEv_mc_closeOutcome_ne mode' k0 k s0 hk]

theorem countEv_mc_adapt (mode : Key → FinalizeOutcome)
    (chunks : List RawChunk) (k : Key) :
    countEv (.messageCompleted k) (adapt_alias_message_stream mode chunks) =
      flagCount (adapterFinalState chunks).state_map k +
        countEv (.messageCompleted k)
          (finalize mode (adapterFinalState chunks).state_map) := by
  have h := processChunks_flag chunks initSt k
  have h0 : flagCount initSt.state_map k = 0 := rfl
  rw [h0] at h
  simp only [adapt_alias_message_stream, adapterFinalState] at *
  simp only [countEv, countEv_append]
  simp only [show (Event.created = Event.messageCompleted k) = False from by
      simp,
    show (Event.inProgress = Event.messageCompleted k) = False from by simp,
    show (Event.completed = Event.messageCompleted k) = False from by simp]
  simp
  omega

theorem nodup_adapterFinalState (chunks : List RawChunk) :
    ((adapterFinalState chunks).state_map.map Prod.fst).Nodup :=
  (processChunks_keys chunks initSt (by simp [initSt])).1

/-- C5 helper: the number of opened events over the whole adapted
stream. -/
theorem countOpened_adapt (mode : Key → FinalizeOutcome)
    (chunks : List RawChunk) :
    countOpened (adapt_alias_message_stream mode chunks) =
      ((adapterFinalState chunks).state_map.map Prod.fst).length := by
  obtain ⟨h1, h2, h3⟩ := processChunks_keys chunks initSt (by simp [initSt])
  simp only [adapt_alias_message_stream, adapterFinalState] at *
  simp only [countOpened, countOpened_append, countOpened_finalize]
  simp only [initSt] at h2
  simpa using h2

/-- C5. For every raw event sequence, the number of `messageOpened`
events emitted by the adapter equals the number of distinct
`(correlation_id, message_kind)` identity pairs among the processed
items. -/
theorem opened_count_eq_distinct_identities (mode : Key → FinalizeOutcome)
    (chunks : List RawChunk) :
    countOpened (adapt_alias_message_stream mode chunks) =
      ((itemsOf chunks).map keyOf).toFinset.card := by
  obtain ⟨h1, h2, h3⟩ := processChunks_keys chunks initSt (by simp [initSt])
  rw [countOpened_adapt]
  rw [← List.toFinset_card_of_nodup (by exact h1)]
  congr 1
  ext k
  simp only [List.mem_toFinset]
  rw [show (processChunks initSt chunks).2 = adapterFinalState chunks from rfl]
    at h3
  rw [h3 k]
  simp [initSt]

/-- C6. At end of stream every still-open `LogicalMessage` is
force-closed exactly once — over the whole run no identity receives
more than one `messageCompleted`, and an identity still open after
the main loop receives exactly one when its builder calls succeed;
each closure attempt is isolated (the events emitted for one identity
do not depend on the failure outcomes of the others); and the final
stream-completed marker is the last event, after all closure
attempts. -/
theorem end_of_stream_forced_closure (mode mode' : Key → FinalizeOutcome)
    (chunks : List RawChunk) (k : Key) :
    countEv (.messageCompleted k)
        (adapt_alias_message_stream mode chunks) ≤ 1 ∧
    (∀ s, lookupKey (adapterFinalState chunks).state_map k = some s →
      s.is_completed = false → mode k = .ok →
      countEv (.messageCompleted k)
        (adapt_alias_message_stream mode chunks) = 1) ∧
    (mode k = mode' k →
      countEv (.messageCompleted k)
          (finalize mode (adapterFinalState chunks).state_map) =
        countEv (.messageCompleted k)
          (finalize mode' (adapterFinalState chunks).state_map)) ∧
    (∃ pre, adapt_alias_message_stream mode chunks =
      pre ++ [.completed]) := by
  have hnd := nodup_adapterFinalState chunks
  have hfin := finalize_mc mode (adapterFinalState chunks).state_map k hnd
  have hcount := countEv_mc_adapt mode chunks k
  refine ⟨?_, ?_, ?_, ?_⟩
  · rw [hcount, hfin]
    cases hl : lookupKey (adapterFinalState chunks).state_map k with
    | none => simp [flagCount, hl]
    | some s =>
      by_cases hc : s.is_completed
      · simp [flagCount, hl, hc]
      · have hc' : s.is_completed = false := by simpa using hc
        by_cases hok : mode k = .ok <;> simp [flagCount, hl, hc', hok]
  · intro s hl hc hok
    rw [hcount, hfin, hl]
    simp [flagCount, hl, hc, hok]
  · exact finalize_mode_local mode mode' _ k
  · refine ⟨.created :: .inProgress ::
      ((processChunks initSt chunks).1 ++
        finalize mode (processChunks initSt chunks).2.state_map), ?_⟩
    simp [adapt_alias_message_stream]

/-- C10. The adapter itself yields the response-level `created` and
`in_progress` events first and a response-level `completed` event
last; on an empty source stream it yields exactly these three events;
and on a successful exchange `stream_query` forwards the whole
adapted stream between its own lifecycle events, so those
adapter-emitted events appear in the runner output as well. -/
theorem adapter_lifecycle_envelope :
    (∀ mode, adapt_alias_message_stream mode [] =
      [.created, .inProgress, .completed]) ∧
    (∀ mode chunks, ∃ body, adapt_alias_message_stream mode chunks =
      .created :: .inProgress :: (body ++ [.completed])) ∧
    (∀ req env, extract_text_from_agent_request req.input ≠ [] →
      (∃ c, resolveConv req env = Except.ok c) →
      env.chatValidate = Except.ok () →
      env.backendError = none →
      stream_query req env =
        .created :: .inProgress ::
          (env.backendEvents.map .adapter ++ [.completed])) := by
  refine ⟨?_, ?_, ?_⟩
  · intro mode
    rfl
  · intro mode chunks
    refine ⟨(processChunks initSt chunks).1 ++
      finalize mode (processChunks initSt chunks).2.state_map, ?_⟩
    simp [adapt_alias_message_stream]
  · intro req env htext ⟨c, hconv⟩ hval herr
    simp [stream_query, htext, hconv, hval, herr]

/-! ## Text deltas (C1) -/

/-- The text deltas of an event list, in order. -/
def deltasOf : List Event → List Str
  | [] => []
  | .textDelta _ d :: l => d :: deltasOf l
  | .created :: l => deltasOf l
  | .inProgress :: l => deltasOf l
  | .messageOpened _ _ _ :: l => deltasOf l
  | .contentCompleted _ :: l => deltasOf l
  | .messageCompleted _ :: l => deltasOf l
  | .setText _ _ :: l => deltasOf l
  | .setData _ :: l => deltasOf l
  | .completed :: l => deltasOf l

/-- The full-replacement (`set_text`) payloads of an event list. -/
def setTexts : List Event → List (Key × Str)
  | [] => []
  | .setText k t :: l => (k, t) :: setTexts l
  | .created :: l => setTexts l
  | .inProgress :: l => setTexts l
  | .messageOpened _ _ _ :: l => setTexts l
  | .contentCompleted _ :: l => setTexts l
  | .messageCompleted _ :: l => setTexts l
  | .textDelta _ _ :: l => setTexts l
  | .setData _ :: l => setTexts l
  | .completed :: l => setTexts l

/-- The suffix deltas of a text sequence relative to an accumulated
prefix: `prefixDeltas c [t₁, t₂, ...] = [t₁ minus c, t₂ minus t₁,
...]` (each entry is `drop` at the previous length, exactly as the
adapter computes it). -/
def prefixDeltas : Str → List Str → List Str
  | _, [] => []
  | c, t :: ts => t.drop c.length :: prefixDeltas t ts

/-- A MESSAGE/REASONING-kind inner message carrying only text content
with no terminal status — the shape of one streamed text update. -/
def mkTextInner (tag tcid : Option String) (t : Str) : InnerMsg :=
  { type := tag, status := none, tool_call_id := tcid, content := some t,
    tool_name := none, files := none }

/-- The corresponding raw item. -/
def mkTextItem (tcid tag : Option String) (t : Str) : Item :=
  { id := none, message := some (mkTextInner tag tcid t) }

/-- Decidable non-emptiness of a delta (the `if delta:` truthiness
check). -/
def neNil (d : Str) : Bool := decide (d ≠ [])

theorem neNil_of_eq (d : Str) (h : d = []) : neNil d = false := by
  subst h
  rfl

theorem neNil_of_ne (d : Str) (h : d ≠ []) : neNil d = true := by
  simp [neNil, h]

theorem keyOf_mkTextItem (tcid tag : Option String) (t : Str) :
    keyOf (mkTextItem tcid tag t) =
      (pyOr tcid none, (runtimeTypeOf tag).1) := rfl

theorem innerOf_mkTextItem (tcid tag : Option String) (t : Str) :
    innerOf (mkTextItem tcid tag t) = mkTextInner tag tcid t := rfl

theorem mkTextInner_type (tag tcid : Option String) (t : Str) :
    (mkTextInner tag tcid t).type = tag := rfl

theorem mkTextInner_status (tag tcid : Option String) (t : Str) :
    (mkTextInner tag tcid t).status = none := rfl

theorem rawTextOf_mkTextInner (tag tcid : Option String) (t : Str) :
    rawTextOf (mkTextInner tag tcid t) = t := by
  simp [rawTextOf, mkTextInner]

theorem deltasOf_append (a b : List Event) :
    deltasOf (a ++ b) = deltasOf a ++ deltasOf b := by
  induction a with
  | nil => rfl
  | cons e l ih => cases e <;> simp [deltasOf, ih]

theorem setTexts_append (a b : List Event) :
    setTexts (a ++ b) = setTexts a ++ setTexts b := by
  induction a with
  | nil => rfl
  | cons e l ih => cases e <;> simp [setTexts, ih]

theorem deltasOf_map_textDelta (k : Key) (l : List Str) :
    deltasOf (l.map (Event.textDelta k)) = l := by
  induction l with
  | nil => rfl
  | cons d ds ih => simp [deltasOf, ih]

theorem setTexts_map_textDelta (k : Key) (l : List Str) :
    setTexts (l.map (Event.textDelta k)) = [] := by
  induction l with
  | nil => rfl
  | cons d ds ih => simp [setTexts, ih]

theorem deltasOf_closeOutcome (mode : Key → FinalizeOutcome) (k : Key)
    (s : MsgState) : deltasOf (closeOutcome mode k s) = [] := by
  by_cases hc : s.is_completed
  · simp [closeOutcome, hc, deltasOf]
  · cases hm : mode k <;> simp [closeOutcome, hc, hm, deltasOf]

theorem setTexts_closeOutcome (mode : Key → FinalizeOutcome) (k : Key)
    (s : MsgState) : setTexts (closeOutcome mode k s) = [] := by
  by_cases hc : s.is_completed
  · simp [closeOutcome, hc, setTexts]
  · cases hm : mode k <;> simp [closeOutcome, hc, hm, setTexts]

theorem deltasOf_finalize (mode : Key → FinalizeOutcome)
    (m : List (Key × MsgState)) : deltasOf (finalize mode m) = [] := by
  induction m with
  | nil => rfl
  | cons p rest ih =>
    obtain ⟨k, s⟩ := p
    simp [finalize, deltasOf_append, deltasOf_closeOutcome, ih]

theorem setTexts_finalize (mode : Key → FinalizeOutcome)
    (m : List (Key × MsgState)) : setTexts (finalize mode m) = [] := by
  induction m with
  | nil => rfl
  | cons p rest ih =>
    obtain ⟨k, s⟩ := p
    simp [finalize, setTexts_append, setTexts_closeOutcome, ih]

theorem flatten_filter_ne (l : List Str) :
    (l.filter neNil).flatten = l.flatten := by
  induction l with
  | nil => rfl
  | cons d ds ih =>
    by_cases hd : d = []
    · rw [List.filter_cons, neNil_of_eq d hd]
      simp [hd, ih]
    · rw [List.filter_cons, neNil_of_ne d hd]
      simp [ih]

theorem append_flatten_prefixDeltas (ts : List Str) :
    ∀ c : Str, List.Chain' (· <+: ·) (c :: ts) →
      c ++ (prefixDeltas c ts).flatten = ts.getLastD c := by
  induction ts with
  | nil =>
    intro c _
    simp [prefixDeltas]
  | cons t ts ih =>
    intro c hch
    rw [List.chain'_cons] at hch
    obtain ⟨hct, hch⟩ := hch
    simp only [prefixDeltas, List.flatten_cons, List.getLastD_cons]
    rw [← List.append_assoc, List.prefix_iff_eq_append.mp hct]
    exact ih t hch

theorem processItem_mkText_run (tcid tag : Option String) (c t : Str)
    (hkind : (runtimeTypeOf tag).1 = .MESSAGE ∨
      (runtimeTypeOf tag).1 = .REASONING)
    (hpre : c.isPrefixOf t = true) :
    processItem
      ⟨[((pyOr tcid none, (runtimeTypeOf tag).1), ⟨c, false⟩)],
       some (pyOr tcid none, (runtimeTypeOf tag).1)⟩
      (mkTextItem tcid tag t) =
    ((if t.drop c.length = [] then [] else
        [.textDelta (pyOr tcid none, (runtimeTypeOf tag).1)
          (t.drop c.length)]),
     ⟨[((pyOr tcid none, (runtimeTypeOf tag).1), ⟨t, false⟩)],
      some (pyOr tcid none, (runtimeTypeOf tag).1)⟩) := by
  have hpre' : c <+: t := List.isPrefixOf_iff_prefix.mp hpre
  rcases hkind with h | h <;>
  · simp only [processItem, keyOf_mkTextItem, innerOf_mkTextItem,
      mkTextInner_type, mkTextInner_status, h]
    simp [stepClose, stepOpen, stepPayload, stepFinish, lookupKey, setState,
      rawTextOf_mkTextInner, hpre, hpre', h]

theorem processItem_mkText_init (tcid tag : Option String) (t : Str)
    (hkind : (runtimeTypeOf tag).1 = .MESSAGE ∨
      (runtimeTypeOf tag).1 = .REASONING) :
    processItem initSt (mkTextItem tcid tag t) =
    (.messageOpened (pyOr tcid none, (runtimeTypeOf tag).1)
        (runtimeTypeOf tag).2 (runtimeTypeOf tag).1 ::
      (if t = [] then [] else
        [.textDelta (pyOr tcid none, (runtimeTypeOf tag).1) t]),
     ⟨[((pyOr tcid none, (runtimeTypeOf tag).1), ⟨t, false⟩)],
      some (pyOr tcid none, (runtimeTypeOf tag).1)⟩) := by
  rcases hkind with h | h <;>
  · simp only [processItem, keyOf_mkTextItem, innerOf_mkTextItem,
      mkTextInner_type, mkTextInner_status, h]
    simp [initSt, stepClose, stepOpen, stepPayload, stepFinish, lookupKey,
      setState, rawTextOf_mkTextInner, List.isPrefixOf, List.nil_prefix, h]

theorem processItems_mkText (tcid tag : Option String)
    (hkind : (runtimeTypeOf tag).1 = .MESSAGE ∨
      (runtimeTypeOf tag).1 = .REASONING) :
    ∀ (ts : List Str) (c : Str), List.Chain' (· <+: ·) (c :: ts) →
    processItems
      ⟨[((pyOr tcid none, (runtimeTypeOf tag).1), ⟨c, false⟩)],
       some (pyOr tcid none, (runtimeTypeOf tag).1)⟩
      (ts.map (mkTextItem tcid tag)) =
    (((prefixDeltas c ts).filter neNil).map
        (Event.textDelta (pyOr tcid none, (runtimeTypeOf tag).1)),
     ⟨[((pyOr tcid none, (runtimeTypeOf tag).1),
        ⟨ts.getLastD c, false⟩)],
      some (pyOr tcid none, (runtimeTypeOf tag).1)⟩) := by
  intro ts
  induction ts with
  | nil =>
    intro c _
    simp [processItems, prefixDeltas]
  | cons t ts ih =>
    intro c hch
    rw [List.chain'_cons] at hch
    obtain ⟨hct, hch⟩ := hch
    simp only [List.map_cons, processItems]
    rw [processItem_mkText_run tcid tag c t hkind
      (List.isPrefixOf_iff_prefix.mpr hct)]
    rw [ih t hch]
    simp only [prefixDeltas, List.getLastD_cons]
    by_cases hd : t.drop c.length = [] <;>
      simp [hd, List.filter_cons, neNil_of_eq, neNil_of_ne]

/-- C1. For a stream of MESSAGE/REASONING items of one identity whose
successive `raw_text` values each extend the previous one as a
prefix, the adapter emits no full replacements, its text deltas are
exactly the non-empty suffixes, and the concatenation of all emitted
deltas equals the final `raw_text`. -/
theorem prefix_delta_round_trip (mode : Key → FinalizeOutcome)
    (tcid tag : Option String) (texts : List Str)
    (hkind : (runtimeTypeOf tag).1 = .MESSAGE ∨
      (runtimeTypeOf tag).1 = .REASONING)
    (hchain : List.Chain' (· <+: ·) ([] :: texts)) :
    setTexts (adapt_alias_message_stream mode
        [.wellFormed (texts.map (mkTextItem tcid tag))]) = [] ∧
    deltasOf (adapt_alias_message_stream mode
        [.wellFormed (texts.map (mkTextItem tcid tag))]) =
      (prefixDeltas [] texts).filter neNil ∧
    (deltasOf (adapt_alias_message_stream mode
        [.wellFormed (texts.map (mkTextItem tcid tag))])).flatten =
      texts.getLastD [] := by
  have hflat : ([] : Str) ++ (prefixDeltas [] texts).flatten =
      texts.getLastD [] := append_flatten_prefixDeltas texts [] hchain
  simp only [List.nil_append] at hflat
  cases texts with
  | nil =>
    simp [adapt_alias_message_stream, processChunks, processChunk,
      processItems, initSt, finalize, deltasOf, setTexts, prefixDeltas]
  | cons t ts =>
    rw [List.chain'_cons] at hchain
    obtain ⟨-, hch⟩ := hchain
    have hbody : processChunks initSt
        [.wellFormed ((t :: ts).map (mkTextItem tcid tag))] =
        ((Event.messageOpened (pyOr tcid none, (runtimeTypeOf tag).1)
            (runtimeTypeOf tag).2 (runtimeTypeOf tag).1 ::
          (if t = [] then [] else
            [.textDelta (pyOr tcid none, (runtimeTypeOf tag).1) t])) ++
          ((prefixDeltas t ts).filter neNil).map
            (Event.textDelta (pyOr tcid none, (runtimeTypeOf tag).1)),
         ⟨[((pyOr tcid none, (runtimeTypeOf tag).1),
            ⟨ts.getLastD t, false⟩)],
          some (pyOr tcid none, (runtimeTypeOf tag).1)⟩) := by
      simp only [processChunks, processChunk, List.map_cons, processItems]
      rw [processItem_mkText_init tcid tag t hkind,
        processItems_mkText tcid tag hkind ts t hch]
      simp
    have hout : adapt_alias_message_stream mode
        [.wellFormed ((t :: ts).map (mkTextItem tcid tag))] =
        .created :: .inProgress ::
          (((Event.messageOpened (pyOr tcid none, (runtimeTypeOf tag).1)
              (runtimeTypeOf tag).2 (runtimeTypeOf tag).1 ::
            (if t = [] then [] else
              [.textDelta (pyOr tcid none, (runtimeTypeOf tag).1) t])) ++
            ((prefixDeltas t ts).filter neNil).map
              (Event.textDelta (pyOr tcid none, (runtimeTypeOf tag).1))) ++
           finalize mode
             [((pyOr tcid none, (runtimeTypeOf tag).1),
               ⟨ts.getLastD t, false⟩)] ++ [.completed]) := by
      simp only [adapt_alias_message_stream]
      rw [hbody]
    have hdeltas : deltasOf (adapt_alias_message_stream mode
        [.wellFormed ((t :: ts).map (mkTextItem tcid tag))]) =
        (prefixDeltas [] (t :: ts)).filter neNil := by
      rw [hout]
      simp only [deltasOf, deltasOf_append, deltasOf_map_textDelta,
        deltasOf_finalize]
      simp only [prefixDeltas, List.length_nil, List.drop_zero,
        List.filter_cons]
      by_cases ht : t = []
      · rw [ht]
        simp [deltasOf, deltasOf_append, deltasOf_map_textDelta,
          deltasOf_finalize, neNil_of_eq ([] : Str) rfl]
      · simp [deltasOf, deltasOf_append, deltasOf_map_textDelta,
          deltasOf_finalize, neNil_of_ne t ht, ht]
    refine ⟨?_, hdeltas, ?_⟩
    · rw [hout]
      simp only [setTexts, setTexts_append, setTexts_map_textDelta,
        setTexts_finalize]
      by_cases ht : t = [] <;>
        simp [ht, setTexts, setTexts_append, setTexts_map_textDelta,
          setTexts_finalize]
    · rw [hdeltas, flatten_filter_ne, hflat]

/-! ## Single active identity (C3) -/

/-- Every not-yet-completed state in the map belongs to the active
identity. -/
def activeInv (st : AdapterSt) : Prop :=
  ∀ k s, lookupKey st.state_map k = some s → s.is_completed = false →
    st.last_active_key = some k

theorem activeInv_initSt : activeInv initSt := by
  intro k s hl
  simp [initSt, lookupKey] at hl

theorem processItem_active (st : AdapterSt) (item : Item)
    (hinv : activeInv st) (k : Key) (s : MsgState)
    (hl : lookupKey (processItem st item).2.state_map k = some s)
    (hc : s.is_completed = false) : k = keyOf item := by
  by_cases hk : k = keyOf item
  · exact hk
  exfalso
  have hl4 : lookupKey (stepClose st (keyOf item)).2.state_map k = some s := by
    simp only [processItem] at hl
    rw [stepFinish_lookup_ne _ _ _ k hk, stepPayload_lookup_ne _ _ _ _ k hk,
      stepOpen_lookup_ne _ _ _ _ k hk] at hl
    exact hl
  cases hla : st.last_active_key with
  | none =>
    rw [stepClose_of_none st (keyOf item) hla] at hl4
    have hact := hinv k s hl4 hc
    rw [hla] at hact
    exact Option.noConfusion hact
  | some lk =>
    by_cases hsel : lk = keyOf item
    · rw [stepClose_of_self st (keyOf item) (by rw [hla, hsel])] at hl4
      have hact := hinv k s hl4 hc
      rw [hla] at hact
      injection hact with h'
      exact hk (h' ▸ hsel)
    · cases ho : lookupKey st.state_map lk with
      | none =>
        rw [stepClose_of_lookup_none st (keyOf item) lk hla hsel ho] at hl4
        have hact := hinv k s hl4 hc
        rw [hla] at hact
        injection hact with h'
        rw [← h'] at hl4
        rw [ho] at hl4
        exact Option.noConfusion hl4
      | some old =>
        by_cases hoc : old.is_completed
        · rw [stepClose_of_completed st (keyOf item) lk old hla hsel ho
            hoc] at hl4
          have hact := hinv k s hl4 hc
          rw [hla] at hact
          injection hact with h'
          rw [← h'] at hl4
          rw [ho] at hl4
          injection hl4 with h''
          rw [h''] at hoc
          rw [hc] at hoc
          exact Bool.noConfusion hoc
        · have hcl := stepClose_close st (keyOf item) lk old hla hsel ho
            (by simpa using hoc)
          rw [hcl] at hl4
          by_cases hklk : k = lk
          · subst hklk
            rw [show ((⟨setState st.state_map k ⟨old.last_content, true⟩,
                st.last_active_key⟩ : AdapterSt)).state_map =
                setState st.state_map k ⟨old.last_content, true⟩ from rfl]
              at hl4
            rw [lookupKey_setState_self st.state_map k _ old ho] at hl4
            injection hl4 with h''
            rw [← h''] at hc
            exact Bool.noConfusion hc
          · rw [show ((⟨setState st.state_map lk ⟨old.last_content, true⟩,
                st.last_active_key⟩ : AdapterSt)).state_map =
                setState st.state_map lk ⟨old.last_content, true⟩ from rfl]
              at hl4
            rw [lookupKey_setState_ne st.state_map lk _ k hklk] at hl4
            have hact := hinv k s hl4 hc
            rw [hla] at hact
            injection hact with h'
            exact hklk h'.symm

theorem processItem_activeInv (st : AdapterSt) (item : Item)
    (hinv : activeInv st) : activeInv (processItem st item).2 := by
  intro k s hl hc
  rw [processItem_last_active]
  rw [processItem_active st item hinv k s hl hc]

theorem processItems_activeInv (items : List Item) (st : AdapterSt)
    (hinv : activeInv st) : activeInv (processItems st items).2 := by
  induction items generalizing st with
  | nil => exact hinv
  | cons i is ih => exact ih (processItem st i).2 (processItem_activeInv st i hinv)

theorem processChunks_activeInv (chunks : List RawChunk) (st : AdapterSt)
    (hinv : activeInv st) : activeInv (processChunks st chunks).2 := by
  induction chunks generalizing st with
  | nil => exact hinv
  | cons c cs ih =>
    cases c with
    | malformed => exact ih st hinv
    | wellFormed ms => exact ih _ (processItems_activeInv ms st hinv)

/-- C3. When a processed item's identity differs from the active one
and the active identity's message is not yet completed, the adapter
first emits its content-completed and message-completed events and
marks it completed, before any event of the new identity; and in every
reachable adapter state at most one registered `LogicalMessage` is not
completed (so at most one is receiving deltas at any instant). -/
theorem identity_switch_force_close :
    (∀ (st : AdapterSt) (item : Item) (lk : Key) (old : MsgState),
      st.last_active_key = some lk → lk ≠ keyOf item →
      lookupKey st.state_map lk = some old → old.is_completed = false →
      (∃ rest, (processItem st item).1 =
        .contentCompleted lk :: .messageCompleted lk :: rest) ∧
      lookupKey (processItem st item).2.state_map lk =
        some ⟨old.last_content, true⟩) ∧
    (∀ (chunks : List RawChunk) (k₁ k₂ : Key) (s₁ s₂ : MsgState),
      lookupKey (adapterFinalState chunks).state_map k₁ = some s₁ →
      lookupKey (adapterFinalState chunks).state_map k₂ = some s₂ →
      s₁.is_completed = false → s₂.is_completed = false → k₁ = k₂) := by
  constructor
  · intro st item lk old hla hne hlk hoc
    have hcl := stepClose_close st (keyOf item) lk old hla hne hlk hoc
    constructor
    · simp only [processItem]
      rw [hcl]
      exact ⟨_, rfl⟩
    · simp only [processItem]
      rw [stepFinish_lookup_ne _ _ _ lk hne, stepPayload_lookup_ne _ _ _ _
        lk hne, stepOpen_lookup_ne _ _ _ _ lk hne]
      rw [show ((⟨(stepClose st (keyOf item)).2.state_map,
          some (keyOf item)⟩ : AdapterSt)).state_map =
          (stepClose st (keyOf item)).2.state_map from rfl]
      rw [hcl]
      exact lookupKey_setState_self st.state_map lk _ old hlk
  · intro chunks k₁ k₂ s₁ s₂ h₁ h₂ c₁ c₂
    have hfin : activeInv (adapterFinalState chunks) :=
      processChunks_activeInv chunks initSt activeInv_initSt
    have e₁ := hfin k₁ s₁ h₁ c₁
    have e₂ := hfin k₂ s₂ h₂ c₂
    rw [e₁] at e₂
    injection e₂

/-! ## Terminal status and identity reuse (C4) -/

theorem countOpened_pos_of_mem (evs : List Event) (k : Key) (r : Role)
    (mt : MessageType) (h : Event.messageOpened k r mt ∈ evs) :
    0 < countOpened evs := by
  induction evs with
  | nil => cases h
  | cons e l ih =>
    rcases List.mem_cons.mp h with he | hl
    · rw [← he]
      simp [countOpened]
    · have := ih hl
      cases e <;> simp [countOpened] <;> omega

/-- C4 (amended). An item with status `"finished"` whose
`LogicalMessage` is not already closed closes it immediately — the
item's events end with the content-completed/message-completed pair
and the state is marked completed; but a later item that reuses the
same identity is NOT treated as a new `LogicalMessage`: the entry
stays in the state table, so no `messageOpened` event is emitted for
any item whose identity is already registered. -/
theorem finished_closes_and_reuse_continues :
    (∀ (st : AdapterSt) (item : Item),
      (innerOf item).status = some ("finished") →
      (∀ s, lookupKey st.state_map (keyOf item) = some s →
        s.is_completed = false) →
      (∃ pre, (processItem st item).1 =
        pre ++ [.contentCompleted (keyOf item),
                .messageCompleted (keyOf item)]) ∧
      (∃ s', lookupKey (processItem st item).2.state_map (keyOf item) =
        some s' ∧ s'.is_completed = true)) ∧
    (∀ (st : AdapterSt) (item : Item) (s : MsgState),
      lookupKey st.state_map (keyOf item) = some s →
      ∀ k r mt, Event.messageOpened k r mt ∉ (processItem st item).1) := by
  constructor
  · intro st item hstatus hopen
    have h0 := stepClose_lookup_key st (keyOf item)
    have h2 := stepOpen_lookup_key
      ⟨(stepClose st (keyOf item)).2.state_map, some (keyOf item)⟩
      (keyOf item) (runtimeTypeOf (innerOf item).type).2
      (runtimeTypeOf (innerOf item).type).1
    rw [show ((⟨(stepClose st (keyOf item)).2.state_map,
        some (keyOf item)⟩ : AdapterSt)).state_map =
        (stepClose st (keyOf item)).2.state_map from rfl, h0] at h2
    have hc2 : ((lookupKey st.state_map (keyOf item)).getD
        ⟨[], false⟩).is_completed = false := by
      cases ho : lookupKey st.state_map (keyOf item) with
      | none => rfl
      | some s0 => exact hopen s0 ho
    have h3 := stepPayload_lookup_key
      (stepOpen ⟨(stepClose st (keyOf item)).2.state_map, some (keyOf item)⟩
        (keyOf item) (runtimeTypeOf (innerOf item).type).2
        (runtimeTypeOf (innerOf item).type).1).2
      (keyOf item) (runtimeTypeOf (innerOf item).type).1 (innerOf item)
    rw [h2] at h3
    have hs4 : ∃ s4, lookupKey (stepPayload
        (stepOpen ⟨(stepClose st (keyOf item)).2.state_map,
          some (keyOf item)⟩ (keyOf item)
          (runtimeTypeOf (innerOf item).type).2
          (runtimeTypeOf (innerOf item).type).1).2
        (keyOf item) (runtimeTypeOf (innerOf item).type).1
        (innerOf item)).2.state_map (keyOf item) = some s4 ∧
        s4.is_completed = false := by
      rw [h3]
      by_cases hmr : (runtimeTypeOf (innerOf item).type).1 = .MESSAGE ∨
          (runtimeTypeOf (innerOf item).type).1 = .REASONING
      · rw [if_pos hmr]
        exact ⟨_, rfl, hc2⟩
      · rw [if_neg hmr]
        exact ⟨_, rfl, hc2⟩
    obtain ⟨s4, hs4, hc4⟩ := hs4
    have hfin := stepFinish_close _ (keyOf item) (innerOf item).status s4
      hs4 hstatus hc4
    constructor
    · simp only [processItem]
      rw [hfin]
      refine ⟨(stepClose st (keyOf item)).1 ++
        ((stepOpen ⟨(stepClose st (keyOf item)).2.state_map,
            some (keyOf item)⟩ (keyOf item)
            (runtimeTypeOf (innerOf item).type).2
            (runtimeTypeOf (innerOf item).type).1).1 ++
          (stepPayload (stepOpen ⟨(stepClose st (keyOf item)).2.state_map,
              some (keyOf item)⟩ (keyOf item)
              (runtimeTypeOf (innerOf item).type).2
              (runtimeTypeOf (innerOf item).type).1).2
            (keyOf item) (runtimeTypeOf (innerOf item).type).1
            (innerOf item)).1), ?_⟩
      simp [List.append_assoc]
    · refine ⟨⟨s4.last_content, true⟩, ?_, rfl⟩
      simp only [processItem]
      rw [hfin]
      exact lookupKey_setState_self _ _ _ s4 hs4
  · intro st item s hl k r mt hmem
    have hcount := processItem_opened st item
    rw [if_pos (mem_of_lookup_some st.state_map (keyOf item) s hl)] at hcount
    have hpos := countOpened_pos_of_mem _ k r mt hmem
    omega

/-! ## Concrete inputs for counterexamples and witnesses -/

/-- A MESSAGE item with content `"a"` and terminal status
`"finished"`. -/
def c4Inner1 : InnerMsg :=
  { type := none, status := some ("finished"), tool_call_id := none,
    content := some (("a").data), tool_name := none, files := none }

def c4Item1 : Item := { id := some ("x"), message := some c4Inner1 }

/-- A MESSAGE item reusing the same identity with content `"ab"` and
no terminal status. -/
def c4Item2 : Item :=
  { id := some ("x"), message := some (mkTextInner none none (("ab").data)) }

/-- C4 counterexample. After `c4Item1` closes its `LogicalMessage`
(status `"finished"`), the reusing item `c4Item2` does not open a new
one: the run contains exactly one `messageOpened` event (a fresh
`LogicalMessage` would make it two), and the later text delta is
applied to the already-closed message. -/
theorem reuse_after_finish_no_fresh_open :
    countOpened (adapt_alias_message_stream (fun _ => .ok)
      [.wellFormed [c4Item1, c4Item2]]) = 1 ∧
    adapt_alias_message_stream (fun _ => .ok)
        [.wellFormed [c4Item1, c4Item2]] =
      [.created, .inProgress,
       .messageOpened (some ("x"), .MESSAGE) .ASSISTANT .MESSAGE,
       .textDelta (some ("x"), .MESSAGE) (("a").data),
       .contentCompleted (some ("x"), .MESSAGE),
       .messageCompleted (some ("x"), .MESSAGE),
       .textDelta (some ("x"), .MESSAGE) (("b").data),
       .completed] := by
  decide

/-- An adapter state with one open message of a different identity. -/
def stC3 : AdapterSt :=
  ⟨[(((some ("y") : Option String), MessageType.MESSAGE),
     ⟨("a").data, false⟩)],
   some ((some ("y") : Option String), MessageType.MESSAGE)⟩

theorem identity_switch_force_close_witness :
    (∃ rest, (processItem stC3 c4Item2).1 =
      .contentCompleted ((some ("y") : Option String),
        MessageType.MESSAGE) ::
      .messageCompleted ((some ("y") : Option String),
        MessageType.MESSAGE) :: rest) ∧
    lookupKey (processItem stC3 c4Item2).2.state_map
        ((some ("y") : Option String), MessageType.MESSAGE) =
      some ⟨("a").data, true⟩ :=
  identity_switch_force_close.1 stC3 c4Item2 _ ⟨("a").data, false⟩ rfl
    (by decide) rfl rfl

theorem finished_closes_and_reuse_continues_witness :
    (∃ pre, (processItem initSt c4Item1).1 =
      pre ++ [.contentCompleted (keyOf c4Item1),
              .messageCompleted (keyOf c4Item1)]) ∧
    (∃ s', lookupKey (processItem initSt c4Item1).2.state_map
        (keyOf c4Item1) = some s' ∧ s'.is_completed = true) :=
  finished_closes_and_reuse_continues.1 initSt c4Item1 rfl
    (fun _ h => Option.noConfusion h)

def c6Chunks : List RawChunk := [.wellFormed [c4Item2]]

theorem end_of_stream_forced_closure_witness :
    countEv (.messageCompleted (keyOf c4Item2))
      (adapt_alias_message_stream (fun _ => .ok) c6Chunks) = 1 :=
  (end_of_stream_forced_closure (fun _ => .ok) (fun _ => .ok) c6Chunks
    (keyOf c4Item2)).2.1 ⟨("ab").data, false⟩ (by decide) rfl rfl

theorem prefix_delta_round_trip_witness :
    (deltasOf (adapt_alias_message_stream (fun _ => .ok)
      [.wellFormed (([("a").data, ("ab").data]).map
        (mkTextItem (some ("t")) none))])).flatten = ("ab").data := by
  have hch : List.Chain' (· <+: ·) ([] :: [("a").data, ("ab").data]) := by
    refine List.chain'_cons.mpr ⟨⟨("a").data, rfl⟩, ?_⟩
    refine List.chain'_cons.mpr ⟨⟨("b").data, rfl⟩, ?_⟩
    exact List.chain'_singleton _
  have h := prefix_delta_round_trip (fun _ => .ok) (some ("t")) none
    [("a").data, ("ab").data] (Or.inl (by decide)) hch
  rw [h.2.2]
  rfl

/-! ## Runner claims (C2, C7) -/

/-- C2. When the extracted input text is empty, `stream_query` yields
exactly three numbered events — created, in_progress, and a failed
event with code 422 — with no completed event and strictly increasing
sequence numbers. -/
theorem empty_input_three_events (req : ReqDict) (env : RunnerEnv)
    (h : extract_text_from_agent_request req.input = []) :
    streamQueryNumbered req env =
      [(0, .created), (1, .inProgress),
       (2, .failed ("422")
         (("Empty input text in AgentRequest.input.").data))] ∧
    List.Chain' (fun a b => a.1 < b.1) (streamQueryNumbered req env) := by
  have hq : stream_query req env = [.created, .inProgress,
      .failed ("422") (("Empty input text in AgentRequest.input.").data)] := by
    simp [stream_query, h]
  have h1 : streamQueryNumbered req env =
      [(0, .created), (1, .inProgress),
       (2, .failed ("422")
         (("Empty input text in AgentRequest.input.").data))] := by
    rw [streamQueryNumbered, hq]
    rfl
  refine ⟨h1, ?_⟩
  rw [h1]
  simp [List.chain'_cons]

def reqEmptyInput : ReqDict :=
  { id := none, session_id := none, input := .turns [], user_id := none,
    conversation_id := none, task_id := none, chat_mode := none }

def envTrivial : RunnerEnv :=
  { convCreate := Except.ok 0, chatValidate := Except.ok (),
    backendEvents := [], backendError := none }

theorem empty_input_three_events_witness :
    streamQueryNumbered reqEmptyInput envTrivial =
      [(0, .created), (1, .inProgress),
       (2, .failed ("422")
         (("Empty input text in AgentRequest.input.").data))] :=
  (empty_input_three_events reqEmptyInput envTrivial rfl).1

def reqPlainText : ReqDict :=
  { id := none, session_id := none, input := .text (("hi").data),
    user_id := none, conversation_id := some 7, task_id := none,
    chat_mode := none }

def envBackendBoom : RunnerEnv :=
  { convCreate := Except.ok 0, chatValidate := Except.ok (),
    backendEvents := [], backendError := some (.otherExc (("boom").data)) }

/-- C7 counterexample. For an unknown exception `str(exc) = "boom"`
the failed event's message is the prefixed
`"Error happens in `query_handler`: boom"`, not the bare stringified
exception `"boom"`. -/
theorem unknown_error_message_not_bare :
    stream_query reqPlainText envBackendBoom =
      [.created, .inProgress,
       .failed ("500")
         (("Error happens in `query_handler`: boom").data)] ∧
    REvent.failed ("500") (("boom").data) ∉
      stream_query reqPlainText envBackendBoom := by
  decide

/-- C7 (amended). An exception from backend invocation or adaptation
turns into a single final failed event: a `BaseError` contributes its
(stringified) code and its message verbatim, any other exception maps
to code 500 with the stringified exception embedded in the
`query_handler`-prefixed message; nothing follows the failed event. -/
theorem backend_error_maps_to_failed (req : ReqDict) (env : RunnerEnv)
    (e : Exc) (htext : extract_text_from_agent_request req.input ≠ [])
    (hconv : ∃ c, resolveConv req env = Except.ok c)
    (hval : env.chatValidate = Except.ok ())
    (herr : env.backendError = some e) :
    stream_query req env =
      [.created, .inProgress] ++ env.backendEvents.map .adapter ++
        [.failed (excCode e) (excMessage e)] := by
  obtain ⟨c, hc⟩ := hconv
  simp [stream_query, htext, hc, hval, herr]

theorem backend_error_maps_to_failed_witness :
    stream_query reqPlainText envBackendBoom =
      [.created, .inProgress] ++
        envBackendBoom.backendEvents.map REvent.adapter ++
        [.failed (excCode (.otherExc (("boom").data)))
          (excMessage (.otherExc (("boom").data)))] :=
  backend_error_maps_to_failed reqPlainText envBackendBoom _ (by decide)
    ⟨7, rfl⟩ rfl rfl

theorem adapter_lifecycle_envelope_witness :
    stream_query reqPlainText envTrivial =
      .created :: .inProgress ::
        (envTrivial.backendEvents.map REvent.adapter ++ [.completed]) :=
  adapter_lifecycle_envelope.2.2 reqPlainText envTrivial (by decide)
    ⟨7, rfl⟩ rfl rfl

/-! ## Native transport path (C8) -/

/-- The error chunk `stream_query_native` yields for an exception
caught during backend streaming. -/
def nativeErrChunk (e : Exc) : NChunk :=
  match e with
  | .baseError c m => .backendErrorChunk m c
  | .otherExc s => .unknownErrorChunk s

def envNativeBoom : NativeEnv :=
  { health := true, hasContext := true, validate := .ok, chunks := [],
    err := some (.otherExc (("boom").data)) }

/-- C8 counterexample. A backend exception inside
`stream_query_native` produces a single structured error chunk and
the SSE stream ends without the `[DONE]` terminator. -/
theorem native_failure_lacks_terminator :
    event_generator envNativeBoom =
      [.unknownErrorChunk (("boom").data)] ∧
    (event_generator envNativeBoom).getLast? ≠ some .doneSentinel := by
  decide

/-- C8 (amended). The native SSE stream ends with the `[DONE]`
terminator on success, and when the runner raises before its first
yield (not started) the wrapper emits an error chunk followed by the
terminator; but a failure handled inside `stream_query_native` —
missing identity context, a request-validation failure, or a backend
exception during streaming — ends the stream with a single structured
error chunk and no terminator. -/
theorem native_terminator_cases (env : NativeEnv) :
    (env.health = true → env.hasContext = true → env.validate = .ok →
      env.err = none →
      event_generator env = env.chunks.map .raw ++ [.doneSentinel]) ∧
    (env.health = false →
      (event_generator env).getLast? = some .doneSentinel) ∧
    (env.health = true → env.hasContext = true → env.validate = .ok →
      ∀ e, env.err = some e →
      event_generator env = env.chunks.map .raw ++ [nativeErrChunk e] ∧
      NChunk.doneSentinel ∉ event_generator env) ∧
    (env.health = true → env.hasContext = false →
      event_generator env = [.missingContext] ∧
      NChunk.doneSentinel ∉ event_generator env) ∧
    (env.health = true → env.hasContext = true →
      env.validate = .validationError →
      event_generator env = [.invalidRequest] ∧
      NChunk.doneSentinel ∉ event_generator env) ∧
    (env.health = true → env.hasContext = true →
      ∀ s, env.validate = .otherError s →
      event_generator env = [.invalidRequest500 s] ∧
      NChunk.doneSentinel ∉ event_generator env) := by
  refine ⟨?_, ?_, ?_, ?_, ?_, ?_⟩
  · intro hh hctx hval he
    simp [event_generator, hh, stream_query_native, hctx, hval, he]
  · intro hh
    simp [event_generator, hh]
  · intro hh hctx hval e he
    cases e with
    | baseError c m =>
      refine ⟨?_, ?_⟩
      · simp [event_generator, hh, stream_query_native, hctx, hval, he,
          nativeErrChunk]
      · simp [event_generator, hh, stream_query_native, hctx, hval, he]
    | otherExc s =>
      refine ⟨?_, ?_⟩
      · simp [event_generator, hh, stream_query_native, hctx, hval, he,
          nativeErrChunk]
      · simp [event_generator, hh, stream_query_native, hctx, hval, he]
  · intro hh hctx
    refine ⟨?_, ?_⟩ <;>
      simp [event_generator, hh, stream_query_native, hctx]
  · intro hh hctx hval
    refine ⟨?_, ?_⟩ <;>
      simp [event_generator, hh, stream_query_native, hctx, hval]
  · intro hh hctx s hval
    refine ⟨?_, ?_⟩ <;>
      simp [event_generator, hh, stream_query_native, hctx, hval]

def envNativeOk : NativeEnv :=
  { health := true, hasContext := true, validate := .ok, chunks := [5],
    err := none }

theorem native_terminator_cases_witness :
    event_generator envNativeOk =
      envNativeOk.chunks.map NChunk.raw ++ [.doneSentinel] :=
  (native_terminator_cases envNativeOk).1 rfl rfl rfl rfl

/-! ## Session→conversation cache (C9) -/

/-- C9 counterexample. With no mutual-exclusion guard in
`_get_or_create_conversation_id`, two concurrent first resolutions
for the same session can both invoke conversation creation: the claim
that every schedule performs at most one creation is false. -/
theorem cache_race_two_creations :
    ¬ ∀ sched : List Bool, (runConvSchedule sched).creations ≤ 1 :=
  fun h => absurd (h [true, false, true, true, false, false]) (by decide)

/-- C9 (amended). The check-then-create sequence runs without any
mutual-exclusion guard: interleaving two first resolutions for one
session at the suspension point between the cache check and the cache
insertion performs the conversation-creation call twice, while a
serialized schedule performs it once (the second task hits the
cache). -/
theorem cache_race_amended :
    (runConvSchedule [true, false, true, true, false, false]).creations
      = 2 ∧
    (runConvSchedule [true, true, true, false, false, false]).creations
      = 1 := by
  decide

end Alias

